import Mathlib

/-!
# VORA router: entropy analysis and tier routing

A shallow embedding of `src/src/vora.js` (`calculateEntropy`, `analyzeComplexity`,
`AGENT_TIERS`, `routeTask`, `getReasoning`, `buildResponse`) and of `extractOptions` of
`src/src/server.js`.

Modelling conventions.

* A JavaScript string is a Lean `String`; `s.length` of the source (UTF-16 code units) is
  `jsLength`. Lone surrogates are not representable.
* `String.prototype.toLowerCase` is a host function. Every definition that calls it takes it
  as the argument `toLowerCase`, so that results hold for every lowering function;
  `asciiLower` agrees with the host function on ASCII text and is used for concrete inputs.
* The arithmetic of the entropy is carried out over the real numbers extended with `NaN`
  (`JSNum`); the rounding of `Math.log2` and of the entropy sum is not modelled.
* The cost estimate is computed in binary64 as in the source: every operation returns the
  double nearest to the exact result, ties to even (`Binary64`). A field of type `ℚ` holds
  the exact value of a double. The time estimate is a product of small numbers that binary64
  represents exactly.
* The object `freq` of `calculateEntropy` is an ordinary object: reading a key that is not an
  own property falls through to `Object.prototype`. The model keeps the own properties as an
  association list in insertion order and resolves inherited keys in `getProp`.
* `routeTask` takes the body as a string, as its callers pass it; the call with the body
  omitted is `routeTaskOmittedBody`, which can throw.
* The two regular expressions of `extractOptions` are searches from the left with lazy
  wildcards (`searchFrom`, `lazyAny`); matching under the flag `i` compares upper-cased
  characters.
-/

namespace Vora

/-! ## Strings -/

/-- Length of a string in UTF-16 code units (`s.length` in the source). -/
def jsLength (s : String) : Nat :=
  (s.data.map (fun c => if c.toNat ≥ 65536 then 2 else 1)).sum

/-- Lowering of the ASCII letters, every other character unchanged. On ASCII text this is what
`String.prototype.toLowerCase` returns. -/
def asciiLower (s : String) : String :=
  String.mk (s.data.map Char.toLower)

/-- The class `\s` of a regular expression without the unicode flag: the white space and line
terminator code points of ECMAScript. -/
def isWhitespace (c : Char) : Bool :=
  let n := c.toNat
  n == 9 || n == 10 || n == 11 || n == 12 || n == 13 || n == 32 || n == 160 ||
  n == 5760 || (8192 ≤ n && n ≤ 8202) || n == 8232 || n == 8233 || n == 8239 ||
  n == 8287 || n == 12288 || n == 65279

/-- Worker of `text.split(/\s+/)`: `cur` is the piece being read (reversed) and `inSep` tells
whether the previous character belonged to a separator run. -/
def splitWhitespaceAux : List Char → List Char → Bool → List String
  | [], cur, _ => [String.mk cur.reverse]
  | c :: cs, cur, inSep =>
    if isWhitespace c then
      (if inSep then splitWhitespaceAux cs [] true
       else String.mk cur.reverse :: splitWhitespaceAux cs [] true)
    else splitWhitespaceAux cs (c :: cur) false

/-- The array `text.split(/\s+/)`: the pieces between maximal runs of white space, with an empty
piece at either end when the text starts or ends with white space. -/
def splitWhitespace (text : String) : List String :=
  splitWhitespaceAux text.data [] false

/-- Test whether the second list is an initial segment of the first. -/
def startsWith : List Char → List Char → Bool
  | _, [] => true
  | [], _ :: _ => false
  | c :: cs, p :: ps => c == p && startsWith cs ps

/-- Substring containment on character lists. -/
def includesChars : List Char → List Char → Bool
  | [], needle => needle.isEmpty
  | c :: cs, needle => startsWith (c :: cs) needle || includesChars cs needle

/-- The source's `text.includes(term)`. -/
def includes (text term : String) : Bool :=
  includesChars text.data term.data

/-- Number of matches of a global regular expression that is an alternation of literal phrases:
the scan goes left to right, at each position the first alternative that matches is taken and
the scan resumes after it. `skip` counts the characters of the current match still to pass. -/
def countMatchesAux (alts : List (List Char)) : Nat → List Char → Nat
  | _, [] => 0
  | skip + 1, _ :: cs => countMatchesAux alts skip cs
  | 0, c :: cs =>
    match alts.find? (fun a => startsWith (c :: cs) a) with
    | some a => 1 + countMatchesAux alts (a.length - 1) cs
    | none => countMatchesAux alts 0 cs

/-- The value `(text.match(/a|b|.../g) || []).length` for literal alternatives. -/
def countMatches (alts : List String) (text : String) : Nat :=
  countMatchesAux (alts.map String.data) 0 text.data

/-! ## JavaScript values of the frequency table -/

/-- Numbers of the entropy computation: a real number or `NaN`. -/
inductive JSNum where
  | num (r : ℝ)
  | nan

/-- Values read from or stored in the object `freq`. -/
inductive JSVal where
  | undefined
  | num (n : Nat)
  | str (s : String)
  | fn (name : String)
  | objectPrototype
  deriving DecidableEq, Repr

/-- Function-valued properties of `Object.prototype`, each with the name of the function it
holds. -/
def objectPrototypeFunctions : List (String × String) :=
  [("constructor", "Object"),
   ("__defineGetter__", "__defineGetter__"),
   ("__defineSetter__", "__defineSetter__"),
   ("hasOwnProperty", "hasOwnProperty"),
   ("__lookupGetter__", "__lookupGetter__"),
   ("__lookupSetter__", "__lookupSetter__"),
   ("isPrototypeOf", "isPrototypeOf"),
   ("propertyIsEnumerable", "propertyIsEnumerable"),
   ("toString", "toString"),
   ("valueOf", "valueOf"),
   ("toLocaleString", "toLocaleString")]

/-- Own properties of an object created by `{}`, in insertion order. -/
abbrev JSObject := List (String × JSVal)

/-- Property read `freq[key]`: an own property, else the property inherited from
`Object.prototype`, else `undefined`. -/
def getProp (freq : JSObject) (key : String) : JSVal :=
  match freq.lookup key with
  | some v => v
  | none =>
    if key = "__proto__" then JSVal.objectPrototype
    else
      match objectPrototypeFunctions.lookup key with
      | some name => JSVal.fn name
      | none => JSVal.undefined

/-- Replace the value of an own property, keeping its position. -/
def replaceProp (key : String) (v : JSVal) : JSObject → JSObject
  | [] => []
  | (k, w) :: rest => if k = key then (k, v) :: rest else (k, w) :: replaceProp key v rest

/-- Property write `freq[key] = v` for a number or string `v`: the setter of `__proto__` ignores
a value that is neither an object nor null; any other key becomes (or stays) an own property. -/
def setProp (freq : JSObject) (key : String) (v : JSVal) : JSObject :=
  if key = "__proto__" then freq
  else if (freq.lookup key).isSome then replaceProp key v freq
  else freq ++ [(key, v)]

/-- Source text of a built-in function as given by `Function.prototype.toString`. -/
def nativeSource (name : String) : String :=
  "function " ++ name ++ "() \x7b [native code] \x7d"

/-- The expression `(v || 0) + 1`: a falsy `v` counts as `0`; a number is incremented; a string,
a function or an object is converted to a string and `"1"` is appended. -/
def orZeroPlusOne : JSVal → JSVal
  | JSVal.undefined => JSVal.num 1
  | JSVal.num n => JSVal.num (n + 1)
  | JSVal.str s => if s = "" then JSVal.num 1 else JSVal.str (s ++ "1")
  | JSVal.fn name => JSVal.str (nativeSource name ++ "1")
  | JSVal.objectPrototype => JSVal.str "[object Object]1"

/-- One step of the counting loop: `freq[token] = (freq[token] || 0) + 1`. -/
def countToken (freq : JSObject) (token : String) : JSObject :=
  setProp freq token (orZeroPlusOne (getProp freq token))

/-- The object `freq` after the counting loop over `tokens`. -/
def buildFreq (tokens : List String) : JSObject :=
  tokens.foldl countToken []

/-- The array `Object.values(freq)`. The host lists keys that are array indices first, in
ascending order, and the other keys in insertion order; the model lists all keys in insertion
order, which gives the same entropy (`foldl_entropyStep_perm`). -/
def objectValues (freq : JSObject) : List JSVal :=
  freq.map Prod.snd

/-- Conversion of a table value to a number. Every string that `orZeroPlusOne` can produce
starts with `function` or `[object`, so it converts to `NaN`, as do `undefined`, functions and
objects. -/
noncomputable def toNumber : JSVal → JSNum
  | JSVal.num n => JSNum.num (n : ℝ)
  | _ => JSNum.nan

namespace JSNum

/-- Division `x / total` by a token count. Past the early return of `calculateEntropy` the
count is positive; a zero divisor (an infinity or `NaN` in the source) is mapped to `NaN`. -/
noncomputable def divNat : JSNum → Nat → JSNum
  | num r, total => if total = 0 then nan else num (r / (total : ℝ))
  | nan, _ => nan

/-- `Math.log2`. It is applied to `count / total` only, which is positive or `NaN`; the value at
a non-positive argument (`-Infinity` or `NaN` in the source) is mapped to `NaN`. -/
noncomputable def log2 : JSNum → JSNum
  | num r => if 0 < r then num (Real.logb 2 r) else nan
  | nan => nan

/-- Product of two numbers. -/
noncomputable def mul : JSNum → JSNum → JSNum
  | num a, num b => num (a * b)
  | _, _ => nan

/-- Difference of two numbers. -/
noncomputable def sub : JSNum → JSNum → JSNum
  | num a, num b => num (a - b)
  | _, _ => nan

/-- Comparison `x > t` with a numeric literal `t`; it is false for `NaN`. -/
def gt : JSNum → ℝ → Prop
  | num r, t => t < r
  | nan, _ => False

/-- Comparison `x >= t`; false for `NaN`. -/
def ge : JSNum → ℝ → Prop
  | num r, t => t ≤ r
  | nan, _ => False

/-- Comparison `x <= t`; false for `NaN`. -/
def le : JSNum → ℝ → Prop
  | num r, t => r ≤ t
  | nan, _ => False

end JSNum

/-! ## `calculateEntropy` -/

/-- The array `tokens` of `calculateEntropy`:
`text.toLowerCase().split(/\s+/).filter(t => t.length > 0)`. -/
def tokenize (toLowerCase : String → String) (text : String) : List String :=
  (splitWhitespace (toLowerCase text)).filter (fun t => decide (jsLength t > 0))

/-- Body of the entropy loop: `entropy -= probability * Math.log2(probability)` with
`probability = count / total`. -/
noncomputable def entropyStep (total : Nat) (entropy : JSNum) (count : JSVal) : JSNum :=
  let probability := (toNumber count).divNat total
  entropy.sub (probability.mul probability.log2)

/-- The function `calculateEntropy` of the source. -/
noncomputable def calculateEntropy (toLowerCase : String → String) (text : String) : JSNum :=
  let tokens := tokenize toLowerCase text
  if tokens.length = 0 then JSNum.num 0
  else
    let freq := buildFreq tokens
    let total := tokens.length
    (objectValues freq).foldl (entropyStep total) (JSNum.num 0)

/-! ## `analyzeComplexity` -/

/-- Result of `analyzeComplexity`. -/
structure Analysis where
  entropy : JSNum
  technicalCount : Nat
  uncertaintyCount : Nat
  crossFileDeps : Nat
  estimatedRank : Nat

/-- The array `technicalTerms` of the source. -/
def technicalTerms : List String :=
  ["oauth", "pkce", "jwt", "webhook", "api", "authentication",
   "authorization", "encryption", "database", "migration",
   "refactor", "architecture", "distributed", "concurrency",
   "async", "race condition", "terraform", "kubernetes",
   "docker", "ci/cd", "deployment", "infrastructure"]

/-- The array `uncertaintyMarkers` of the source. -/
def uncertaintyMarkers : List String :=
  ["maybe", "not sure", "investigate", "figure out",
   "explore", "unclear", "complex", "difficult",
   "how to", "why", "what if"]

/-- The alternatives of the pattern `/multiple files|across files|refactor|migrate/g`. -/
def crossFilePhrases : List String :=
  ["multiple files", "across files", "refactor", "migrate"]

/-- The template literal of the source, then lowered: the text that is analysed. -/
def fullText (toLowerCase : String → String) (title body : String) : String :=
  toLowerCase (title ++ " " ++ body)

open Classical in
/-- The function `analyzeComplexity` of the source. -/
noncomputable def analyzeComplexity (toLowerCase : String → String) (title body : String) :
    Analysis :=
  let fullText := fullText toLowerCase title body
  let entropy := calculateEntropy toLowerCase fullText
  let technicalCount := (technicalTerms.filter (fun term => includes fullText term)).length
  let uncertaintyCount :=
    (uncertaintyMarkers.filter (fun marker => includes fullText marker)).length
  let crossFileDeps := countMatches crossFilePhrases fullText
  let estimatedRank :=
    if entropy.gt 4.5 ∨ technicalCount > 5 ∨ uncertaintyCount > 3 then 9
    else if entropy.gt 3.8 ∨ technicalCount > 3 then 7
    else if entropy.gt 3.0 ∨ technicalCount > 1 then 5
    else if entropy.gt 2.0 then 3
    else 2
  { entropy := entropy
    technicalCount := technicalCount
    uncertaintyCount := uncertaintyCount
    crossFileDeps := crossFileDeps
    estimatedRank := estimatedRank }

/-! ## The tier catalog -/

/-- An entry of `AGENT_TIERS`; `pfx` is the field `prefix` of the source. The field
`costPer1MTokens` holds the decimal value written in the source (`0.14` is `14 / 100`); where
the code computes with it, it is the double nearest to that value (`Binary64.ofDecimal`). -/
structure AgentTier where
  tier : Nat
  name : String
  pfx : String
  model : String
  costPer1MTokens : ℚ
  rank : Nat
  minRank : Nat
  deriving DecidableEq

/-- The constant table `AGENT_TIERS` of the source. -/
def AGENT_TIERS : List AgentTier :=
  [ { tier := 1, name := "Executive", pfx := "e", model := "claude-opus-4.1",
      costPer1MTokens := 15, rank := 9, minRank := 9 },
    { tier := 2, name := "Manager", pfx := "m", model := "claude-sonnet-4.5",
      costPer1MTokens := 3, rank := 8, minRank := 7 },
    { tier := 3, name := "Worker", pfx := "w", model := "deepseek-chat",
      costPer1MTokens := 14 / 100, rank := 6, minRank := 5 },
    { tier := 4, name := "Intern", pfx := "i", model := "qwen-32b-vast",
      costPer1MTokens := 5 / 100, rank := 5, minRank := 4 },
    { tier := 5, name := "FreeAgent", pfx := "f", model := "qwen-14b-local",
      costPer1MTokens := 0, rank := 4, minRank := 3 },
    { tier := 6, name := "Script", pfx := "s", model := "bash-script",
      costPer1MTokens := 0, rank := 2, minRank := 1 } ]

/-! ## `routeTask` -/

/-- The argument `options` of `routeTask`; an absent field is `none`. -/
structure RoutingOptions where
  difficulty : Option String := none
  costTolerance : Option String := none

/-- The object returned by `routeTask`. -/
structure RoutingResult where
  agent : AgentTier
  analysis : Analysis
  reasoning : String
  costEstimate : ℚ
  timeEstimate : ℚ
  agentId : String

/-- First capture group of the first match of `/R(\d+)/`: the maximal run of decimal digits
after the first `R` that is followed by a digit; `none` when the pattern does not match. -/
def matchRDigits : List Char → Option (List Char)
  | [] => none
  | c :: rest =>
    if c = 'R' ∧ (rest.head?.any Char.isDigit) = true then some (rest.takeWhile Char.isDigit)
    else matchRDigits rest

/-- The function `parseInt` on a string of decimal digits. The source holds the value as a
double; the comparisons with the tier thresholds agree with those of the exact integer. -/
def parseInt (digits : List Char) : Nat :=
  digits.foldl (fun acc c => 10 * acc + (c.toNat - 48)) 0

/-- The element `model.split('-')[0]`: the part of the model name before its first hyphen. -/
def modelPrefix (model : String) : String :=
  String.mk (model.data.takeWhile (fun c => c != '-'))

/-- The template literal that builds `agentId`. -/
def agentIdOf (agent : AgentTier) : String :=
  "a-" ++ agent.pfx ++ "-worker_v1.0-" ++ modelPrefix agent.model ++ "_20251105-r" ++
    toString agent.rank

/-- The function `getReasoning` of the source. -/
def getReasoning (_agent : AgentTier) (analysis : Analysis) : String :=
  let reasons : List String :=
    [ if analysis.estimatedRank ≥ 9 then "Critical/novel task requiring top-tier reasoning"
      else if analysis.estimatedRank ≥ 7 then "Complex task with architectural implications"
      else if analysis.estimatedRank ≥ 5 then "Standard feature/fix with moderate complexity"
      else if analysis.estimatedRank ≥ 3 then "Simple task with clear requirements"
      else "Trivial task suitable for basic execution" ]
  let reasons :=
    if analysis.technicalCount > 3 then
      reasons ++ ["High technical complexity (" ++ toString analysis.technicalCount ++
        " technical terms)"]
    else reasons
  let reasons :=
    if analysis.uncertaintyCount > 0 then
      reasons ++ ["Uncertainty present (" ++ toString analysis.uncertaintyCount ++ " markers)"]
    else reasons
  ". ".intercalate reasons

/-- The function `buildResponse` of the source. -/
def buildResponse (agent : AgentTier) (analysis : Analysis) (reasoning : String) :
    RoutingResult :=
  { agent := agent
    analysis := analysis
    reasoning := reasoning
    costEstimate := 0
    timeEstimate := 10
    agentId := agentIdOf agent }

/-- The table `[1.0, 1.5, 2.0, 3.0, 4.0, 5.0]` of time multipliers. -/
def tierMultipliers : List ℚ := [1, 3 / 2, 2, 3, 4, 5]

/-- The expression `[1.0, 1.5, 2.0, 3.0, 4.0, 5.0][tier - 1] || 1.0`: an index outside the table
reads `undefined`, and `undefined` or `0` is replaced by `1.0`. -/
def tierMultiplier (tier : Nat) : ℚ :=
  match (if tier = 0 then none else tierMultipliers.get? (tier - 1)) with
  | some m => if m = 0 then 1 else m
  | none => 1

/-- The literal that triggers the cost-tolerance override. -/
def freeOnly : String := "Free only (Tier 5-6)"

/-! ### Binary64 arithmetic of the cost estimate -/

/-- Worker of `floorLog2`; the fuel bounds the number of halvings. -/
def floorLog2Aux : Nat → Nat → Nat
  | 0, _ => 0
  | fuel + 1, n => if n < 2 then 0 else floorLog2Aux fuel (n / 2) + 1

/-- Position of the leading bit of a positive number: the floor of its binary logarithm. -/
def floorLog2 (n : Nat) : Nat :=
  floorLog2Aux n n

/-- The floor of the binary logarithm of `n / d`, for positive `n` and `d`. -/
def binade (n d : Nat) : Int :=
  let k : Int := (floorLog2 n : Int) - (floorLog2 d : Int)
  if k ≥ 0 then (if d * 2 ^ k.toNat ≤ n then k else k - 1)
  else (if d ≤ n * 2 ^ (-k).toNat then k else k - 1)

/-- The integer nearest to `a / b`, the even one when two are equally near. -/
def roundHalfEven (a b : Nat) : Nat :=
  let m := a / b
  let r := a % b
  if 2 * r < b then m
  else if b < 2 * r then m + 1
  else if m % 2 = 0 then m
  else m + 1

/-- A finite non-negative binary64 number, of value `mantissa * 2 ^ exponent`. Negative numbers,
infinities and `NaN` do not arise in the cost estimate: its operands are string lengths (below
`2 ^ 53`) and non-negative constants, and the only divisor is `1000000`. -/
structure Binary64 where
  mantissa : Nat
  exponent : Int
  deriving DecidableEq, Repr

namespace Binary64

/-- The exact value of a binary64 number. -/
def toRat (x : Binary64) : ℚ :=
  (x.mantissa : ℚ) * (2 : ℚ) ^ x.exponent

/-- The double nearest to `(n / d) * 2 ^ e`, ties to even: 53 significant bits, and the spacing
`2 ^ (-1074)` of the subnormal range below `2 ^ (-1022)`. -/
def round (n d : Nat) (e : Int) : Binary64 :=
  if n = 0 then ⟨0, 0⟩
  else
    let s : Int := max (binade n d + e) (-1022) - 52
    let t : Int := e - s
    ⟨if t ≥ 0 then roundHalfEven (n * 2 ^ t.toNat) d
      else roundHalfEven n (d * 2 ^ (-t).toNat), s⟩

/-- Conversion of a non-negative integer to a double. -/
def ofNat (n : Nat) : Binary64 :=
  round n 1 0

/-- The value of a non-negative decimal literal of the source: the double nearest to it. -/
def ofDecimal (q : ℚ) : Binary64 :=
  round q.num.natAbs q.den 0

/-- The sum `x + y` of binary64: the exact sum, rounded. -/
def add (x y : Binary64) : Binary64 :=
  let e := min x.exponent y.exponent
  round (x.mantissa * 2 ^ (x.exponent - e).toNat + y.mantissa * 2 ^ (y.exponent - e).toNat) 1 e

/-- The product `x * y` of binary64: the exact product, rounded. -/
def mul (x y : Binary64) : Binary64 :=
  round (x.mantissa * y.mantissa) 1 (x.exponent + y.exponent)

/-- The quotient `x / y` of binary64 for a non-zero divisor: the exact quotient, rounded. -/
def div (x y : Binary64) : Binary64 :=
  round x.mantissa y.mantissa (x.exponent - y.exponent)

end Binary64

/-- The constant `manualRank` of `routeTask`:
`options.difficulty ? parseInt(options.difficulty.match(/R(\d+)/)?.[1] || '0') : null`.
An absent or empty `difficulty` is falsy and gives `null` (here `none`). -/
def manualRank (options : RoutingOptions) : Option Nat :=
  match options.difficulty with
  | some difficulty =>
    if difficulty = "" then none
    else some (parseInt ((matchRDigits difficulty.data).getD "0".data))
  | none => none

/-- The constant `targetRank` of `routeTask`: `manualRank || analysis.estimatedRank`, where
`null` and `0` are falsy. -/
def targetRank (options : RoutingOptions) (analysis : Analysis) : Nat :=
  match manualRank options with
  | some r => if r = 0 then analysis.estimatedRank else r
  | none => analysis.estimatedRank

/-- The constant `selectedAgent` of `routeTask`:
`AGENT_TIERS.find(agent => targetRank >= agent.minRank) || AGENT_TIERS[AGENT_TIERS.length - 1]`. -/
def selectedAgent (targetRank : Nat) : AgentTier :=
  match AGENT_TIERS.find? (fun agent => decide (targetRank ≥ agent.minRank)) with
  | some agent => agent
  | none => AGENT_TIERS.get ⟨AGENT_TIERS.length - 1, by decide⟩

/-- The function `routeTask` of the source. -/
noncomputable def routeTask (toLowerCase : String → String) (title body : String)
    (options : RoutingOptions) : RoutingResult :=
  let analysis := analyzeComplexity toLowerCase title body
  let selectedAgent := selectedAgent (targetRank options analysis)
  -- `(title.length + body.length) * 1.5`, in binary64
  let estimatedTokens : Binary64 :=
    Binary64.mul (Binary64.add (Binary64.ofNat (jsLength title)) (Binary64.ofNat (jsLength body)))
      (Binary64.ofDecimal (3 / 2))
  -- `(estimatedTokens / 1_000_000) * selectedAgent.costPer1MTokens`, in binary64
  let costEstimate : ℚ :=
    (Binary64.mul (Binary64.div estimatedTokens (Binary64.ofDecimal 1000000))
      (Binary64.ofDecimal selectedAgent.costPer1MTokens)).toRat
  let baseTime : ℚ := 10
  let timeEstimate : ℚ := baseTime * tierMultiplier selectedAgent.tier
  let rankBased : RoutingResult :=
    { agent := selectedAgent
      analysis := analysis
      reasoning := getReasoning selectedAgent analysis
      costEstimate := costEstimate
      timeEstimate := timeEstimate
      agentId := agentIdOf selectedAgent }
  if options.costTolerance = some freeOnly then
    match AGENT_TIERS.find? (fun a => decide (a.tier ≥ 5)) with
    | some freeAgent => buildResponse freeAgent analysis "Cost constraint: free only"
    | none => rankBased
  else rankBased

/-! ## `routeTask` called without a body -/

/-- Exceptions raised by the source. -/
inductive JSError where
  | typeError (message : String)
  deriving DecidableEq, Repr

/-- The call `routeTask(title, undefined, options)`, that is `routeTask` with the body omitted.
The parameter `body` has no default value. The template literal of `analyzeComplexity` renders
`undefined` as the text `undefined`; the free-only override returns before `body` is read again;
on the rank-based path `body.length` reads a property of `undefined` and throws a `TypeError`. -/
noncomputable def routeTaskOmittedBody (toLowerCase : String → String) (title : String)
    (options : RoutingOptions) : Except JSError RoutingResult :=
  let analysis := analyzeComplexity toLowerCase title "undefined"
  let bodyLength : Except JSError RoutingResult :=
    Except.error
      (JSError.typeError "Cannot read properties of undefined (reading length)")
  if options.costTolerance = some freeOnly then
    match AGENT_TIERS.find? (fun a => decide (a.tier ≥ 5)) with
    | some freeAgent =>
      Except.ok (buildResponse freeAgent analysis "Cost constraint: free only")
    | none => bodyLength
  else bodyLength

/-- The expression `body || ''` with which both callers in `src/src/server.js` pass the body:
a missing or empty body becomes the empty string. -/
def bodyOrEmpty (body : Option String) : String :=
  match body with
  | some b => if b = "" then "" else b
  | none => ""

/-! ## `extractOptions` (src/src/server.js) -/

/-- Line terminators, the characters that `.` of a regular expression does not match. -/
def isLineTerminator (c : Char) : Bool :=
  let n := c.toNat
  n == 10 || n == 13 || n == 8232 || n == 8233

/-- Match of one character against an ASCII pattern character under the flag `i` (without the
unicode flag): both are compared after upper-casing, and a character outside ASCII never
matches an ASCII one. -/
def eqIgnoreCase (c p : Char) : Bool :=
  c.toUpper == p.toUpper

/-- Match of a literal pattern at the head of the text under the flag `i`. -/
def startsWithIgnoreCase : List Char → List Char → Bool
  | _, [] => true
  | [], _ :: _ => false
  | c :: cs, p :: ps => eqIgnoreCase c p && startsWithIgnoreCase cs ps

/-- The lazy wildcard `.*?` followed by the pattern `rest`: `rest` is tried at the current
position first; when it fails one more character other than a line terminator is consumed. -/
def lazyAny {α : Type} (rest : List Char → Option α) : List Char → Option α
  | [] => rest []
  | c :: cs =>
    match rest (c :: cs) with
    | some r => some r
    | none => if isLineTerminator c then none else lazyAny rest cs

/-- The search of `text.match(pattern)` for a pattern without the global flag: the pattern is
tried at every start position from the left and the first success is returned. -/
def searchFrom {α : Type} (pattern : List Char → Option α) : List Char → Option α
  | [] => pattern []
  | c :: cs =>
    match pattern (c :: cs) with
    | some r => some r
    | none => searchFrom pattern cs

/-- The group `(R\d+)` under the flag `i` at the head of the text: the letter `R` or `r` and
the maximal run of decimal digits after it; the result is the captured text. -/
def rankGroup : List Char → Option (List Char)
  | c :: d :: rest =>
    if eqIgnoreCase c 'R' && d.isDigit then some (c :: (d :: rest).takeWhile Char.isDigit)
    else none
  | _ => none

/-- The pattern `/Difficulty.*?(R\d+)/i` at the head of the text; the result is group 1. -/
def difficultyPattern (text : List Char) : Option (List Char) :=
  if startsWithIgnoreCase text "Difficulty".data then
    lazyAny rankGroup (text.drop "Difficulty".length)
  else none

/-- The alternatives of the capture group of the cost-tolerance pattern. -/
def costPhrases : List String :=
  ["Free only", "Cheap preferred", "Standard", "Premium OK", "Critical"]

/-- The group `(Free only|Cheap preferred|Standard|Premium OK|Critical)` under the flag `i` at
the head of the text: the first alternative that matches; the result is the captured text. -/
def costGroup (text : List Char) : Option (List Char) :=
  costPhrases.findSome? (fun phrase =>
    if startsWithIgnoreCase text phrase.data then some (text.take phrase.length) else none)

/-- The part `:.*?(...)` of the cost-tolerance pattern at the head of the text. -/
def colonThenCost : List Char → Option (List Char)
  | c :: rest => if c = ':' then lazyAny costGroup rest else none
  | [] => none

/-- The pattern
`/Cost Tolerance.*?:.*?(Free only|Cheap preferred|Standard|Premium OK|Critical)/i` at the head
of the text; the result is group 1. -/
def costPattern (text : List Char) : Option (List Char) :=
  if startsWithIgnoreCase text "Cost Tolerance".data then
    lazyAny colonThenCost (text.drop "Cost Tolerance".length)
  else none

/-- The function `extractOptions` of `src/src/server.js`. -/
def extractOptions (body : String) : RoutingOptions :=
  { difficulty := (searchFrom difficultyPattern body.data).map String.mk
    costTolerance := (searchFrom costPattern body.data).map String.mk }

/-! ## Definitions that follow the specification -/

/-- The band sentence of the reasoning (specification section 4.6 (a)), keyed to the rank. -/
def bandSentence (rank : Nat) : String :=
  if rank ≥ 9 then "Critical/novel task requiring top-tier reasoning"
  else if rank ≥ 7 then "Complex task with architectural implications"
  else if rank ≥ 5 then "Standard feature/fix with moderate complexity"
  else if rank ≥ 3 then "Simple task with clear requirements"
  else "Trivial task suitable for basic execution"

/-- The clause of the reasoning on technical terms (section 4.6 (b)). -/
def technicalClause (technicalCount : Nat) : String :=
  "High technical complexity (" ++ toString technicalCount ++ " technical terms)"

/-- The clause of the reasoning on uncertainty markers (section 4.6 (c)). -/
def uncertaintyClause (uncertaintyCount : Nat) : String :=
  "Uncertainty present (" ++ toString uncertaintyCount ++ " markers)"

/-- The sentences of the reasoning in the order of the specification (section 4.6): the band
sentence, the technical clause if the technical count exceeds 3, the uncertainty clause if the
uncertainty count is positive. -/
def reasoningSentences (rank technicalCount uncertaintyCount : Nat) : List String :=
  [bandSentence rank] ++
    (if technicalCount > 3 then [technicalClause technicalCount] else []) ++
    (if uncertaintyCount > 0 then [uncertaintyClause uncertaintyCount] else [])

/-- The agent identifier of the specification (section 4.6):
`a-{prefix}-worker_v1.0-{modelFamily}_20251105-r{rank}`, where the model family is the part of
the model name before its first hyphen. -/
def agentIdFormat (agent : AgentTier) : String :=
  "a-" ++ agent.pfx ++ "-worker_v1.0-" ++
    String.mk (agent.model.data.takeWhile (fun c => decide (c ≠ '-'))) ++
    "_20251105-r" ++ toString agent.rank


/-- The rank table of the specification (section 4.3), read top to bottom, first matching
row wins. -/
noncomputable def rankTable (entropy : JSNum) (technicalCount uncertaintyCount : Nat) : Nat :=
  open Classical in
  if entropy.gt 4.5 ∨ technicalCount > 5 ∨ uncertaintyCount > 3 then 9
  else if entropy.gt 3.8 ∨ technicalCount > 3 then 7
  else if entropy.gt 3.0 ∨ technicalCount > 1 then 5
  else if entropy.gt 2.0 then 3
  else 2

/-- The first-match rule of the specification (section 4.4, step 3): the first catalog entry
whose `minRank` does not exceed the rank. -/
def firstMatch (rank : Nat) : Option AgentTier :=
  AGENT_TIERS.find? (fun agent => decide (agent.minRank ≤ rank))

/-- The entropy of the specification (section 4.1) on a token sequence: 0 for the empty
sequence, otherwise `-Σ p·log2(p)` over the distinct tokens, with `p = count/total`. -/
noncomputable def shannonEntropy (tokens : List String) : ℝ :=
  if tokens = [] then 0
  else
    - ∑ t in tokens.toFinset,
        ((tokens.count t : ℝ) / (tokens.length : ℝ)) *
          Real.logb 2 ((tokens.count t : ℝ) / (tokens.length : ℝ))

/-- A token that names no property of `Object.prototype`: reading it from a fresh object gives
`undefined`. -/
def plainKey (token : String) : Prop :=
  token ≠ "__proto__" ∧ objectPrototypeFunctions.lookup token = none

instance (token : String) : Decidable (plainKey token) := by
  unfold plainKey
  exact inferInstance

/-- Invariant of the counting loop over tokens that name no property of `Object.prototype`:
after the tokens `seen`, the keys of `freq` are the distinct tokens of `seen`, each once, and
every key holds its number of occurrences in `seen`. -/
def Counts (freq : JSObject) (seen : List String) : Prop :=
  (freq.map Prod.fst).Nodup ∧ (∀ k ∈ seen, k ∈ freq.map Prod.fst) ∧
  ∀ kv ∈ freq, kv.1 ∈ seen ∧ kv.2 = JSVal.num (seen.count kv.1)


/-! ## Lemmas -/

theorem freeAgent_lookup :
    AGENT_TIERS.find? (fun a => decide (a.tier ≥ 5)) = some (AGENT_TIERS.get ⟨4, by decide⟩) := by
  decide

theorem routeTask_of_not_free (toLowerCase : String → String) (title body : String)
    (options : RoutingOptions) (h : options.costTolerance ≠ some freeOnly) :
    routeTask toLowerCase title body options =
      { agent := selectedAgent (targetRank options (analyzeComplexity toLowerCase title body))
        analysis := analyzeComplexity toLowerCase title body
        reasoning := getReasoning
          (selectedAgent (targetRank options (analyzeComplexity toLowerCase title body)))
          (analyzeComplexity toLowerCase title body)
        costEstimate :=
          (Binary64.mul
            (Binary64.div
              (Binary64.mul
                (Binary64.add (Binary64.ofNat (jsLength title)) (Binary64.ofNat (jsLength body)))
                (Binary64.ofDecimal (3 / 2)))
              (Binary64.ofDecimal 1000000))
            (Binary64.ofDecimal (selectedAgent
              (targetRank options
                (analyzeComplexity toLowerCase title body))).costPer1MTokens)).toRat
        timeEstimate := 10 * tierMultiplier
          (selectedAgent (targetRank options (analyzeComplexity toLowerCase title body))).tier
        agentId := agentIdOf
          (selectedAgent (targetRank options (analyzeComplexity toLowerCase title body))) } := by
  unfold routeTask
  simp only [if_neg h]

theorem matchRDigits_eq_none (l : List Char)
    (h : ∀ pre post c, l = pre ++ 'R' :: c :: post → c.isDigit = false) :
    matchRDigits l = none := by
  induction l with
  | nil => rfl
  | cons a rest ih =>
    unfold matchRDigits
    have hrest : matchRDigits rest = none := by
      apply ih
      intro pre post c hc
      exact h (a :: pre) post c (by simp [hc])
    by_cases ha : a = 'R'
    · cases rest with
      | nil => simp [matchRDigits]
      | cons c post =>
        have hc : c.isDigit = false := h [] post c (by simp [ha])
        simp [hc, hrest]
    · simp [ha, hrest]

theorem digitChar_toNat (k : Nat) (hk : k < 10) : (Nat.digitChar k).toNat - 48 = k := by
  interval_cases k <;> rfl

theorem digitChar_isDigit (k : Nat) (hk : k < 10) : (Nat.digitChar k).isDigit = true := by
  interval_cases k <;> rfl

theorem parseInt_toDigitsCore (fuel n : Nat) (ds : List Char) (h : n < fuel) :
    (Nat.toDigitsCore 10 fuel n ds).foldl (fun acc c => 10 * acc + (c.toNat - 48)) 0 =
      ds.foldl (fun acc c => 10 * acc + (c.toNat - 48)) n := by
  induction fuel generalizing n ds with
  | zero => omega
  | succ fuel ih =>
    unfold Nat.toDigitsCore
    by_cases h0 : n / 10 = 0
    · have hlt : n < 10 := by omega
      simp only [h0, if_true, List.foldl_cons, Nat.mul_zero, Nat.zero_add]
      rw [digitChar_toNat _ (Nat.mod_lt _ (by decide)), Nat.mod_eq_of_lt hlt]
    · simp only [h0, if_false]
      rw [ih (n / 10) _ (by omega)]
      simp only [List.foldl_cons]
      rw [digitChar_toNat _ (Nat.mod_lt _ (by decide))]
      congr 1
      omega

theorem toDigitsCore_all_digits (fuel n : Nat) (ds : List Char)
    (hds : ∀ c ∈ ds, c.isDigit = true) :
    ∀ c ∈ Nat.toDigitsCore 10 fuel n ds, c.isDigit = true := by
  induction fuel generalizing n ds with
  | zero => simpa [Nat.toDigitsCore] using hds
  | succ fuel ih =>
    unfold Nat.toDigitsCore
    have hcons : ∀ c ∈ Nat.digitChar (n % 10) :: ds, c.isDigit = true := by
      intro c hc
      rcases List.mem_cons.mp hc with rfl | hc
      · exact digitChar_isDigit _ (Nat.mod_lt _ (by decide))
      · exact hds c hc
    by_cases h0 : n / 10 = 0
    · simpa only [h0, if_true] using hcons
    · simp only [h0, if_false]
      exact ih _ _ hcons

theorem toDigitsCore_ne_nil (fuel n : Nat) (ds : List Char) (h : 0 < fuel) :
    Nat.toDigitsCore 10 fuel n ds ≠ [] := by
  induction fuel generalizing n ds with
  | zero => omega
  | succ fuel ih =>
    unfold Nat.toDigitsCore
    by_cases h0 : n / 10 = 0
    · simp [h0]
    · simp only [h0, if_false]
      cases fuel with
      | zero => simp [Nat.toDigitsCore]
      | succ f => exact ih _ _ (Nat.succ_pos f)

theorem parseInt_repr (n : Nat) : parseInt (toString n).data = n := by
  show parseInt (Nat.toDigits 10 n).asString.data = n
  unfold parseInt Nat.toDigits
  simp only [List.asString]
  rw [parseInt_toDigitsCore _ _ _ (Nat.lt_succ_self n)]
  rfl

theorem matchRDigits_R_repr (n : Nat) :
    matchRDigits ("R" ++ toString n).data = some (toString n).data := by
  have hall : ∀ c ∈ (toString n).data, c.isDigit = true := by
    show ∀ c ∈ (Nat.toDigits 10 n).asString.data, c.isDigit = true
    exact toDigitsCore_all_digits _ _ _ (by simp)
  have hne : (toString n).data ≠ [] := by
    show (Nat.toDigits 10 n).asString.data ≠ []
    exact toDigitsCore_ne_nil _ _ _ (Nat.succ_pos n)
  have hdata : ("R" ++ toString n).data = 'R' :: (toString n).data := by
    rw [String.data_append]
    rfl
  rw [hdata]
  unfold matchRDigits
  cases hd : (toString n).data with
  | nil => exact absurd hd hne
  | cons c cs =>
    rw [hd] at hall
    have hc : c.isDigit = true := hall c (List.mem_cons_self _ _)
    have htw : (c :: cs).takeWhile Char.isDigit = c :: cs := by
      rw [List.takeWhile_eq_self_iff]
      exact hall
    simp [hc, htw]

theorem selectedAgent_eq_of_firstMatch (r : Nat) (a : AgentTier) (h : firstMatch r = some a) :
    selectedAgent r = a := by
  unfold firstMatch at h
  unfold selectedAgent
  simp only [ge_iff_le, h]

theorem firstMatch_isSome (r : Nat) (h : 1 ≤ r) : ∃ a, firstMatch r = some a := by
  by_cases h9 : r ≤ 9
  · interval_cases r <;> exact ⟨_, rfl⟩
  · refine ⟨AGENT_TIERS.get ⟨0, by decide⟩, ?_⟩
    have : 9 ≤ r := by omega
    simp [firstMatch, AGENT_TIERS, this]

theorem targetRank_of_no_match (d : String) (ct : Option String) (analysis : Analysis)
    (h : matchRDigits d.data = none) :
    targetRank { difficulty := some d, costTolerance := ct } analysis =
      analysis.estimatedRank := by
  unfold targetRank manualRank
  by_cases hd : d = ""
  · simp [hd]
  · simp [hd, h, parseInt]

theorem targetRank_of_absent (ct : Option String) (analysis : Analysis) :
    targetRank { difficulty := none, costTolerance := ct } analysis =
      analysis.estimatedRank := rfl

theorem targetRank_R_repr (n : Nat) (hn : 1 ≤ n) (ct : Option String) (analysis : Analysis) :
    targetRank { difficulty := some ("R" ++ toString n), costTolerance := ct } analysis = n := by
  have hne : ("R" ++ toString n) ≠ "" := by
    intro h
    have := congrArg String.data h
    rw [String.data_append] at this
    simp at this
  unfold targetRank manualRank
  simp only [hne, if_false, matchRDigits_R_repr, Option.getD_some, parseInt_repr]
  have : n ≠ 0 := by omega
  simp [this]

/-! ### Evaluation of the entropy loop -/

theorem entropyStep_num (total n : Nat) (e : ℝ) (ht : 0 < total) (hn : 0 < n) :
    entropyStep total (JSNum.num e) (JSVal.num n) =
      JSNum.num (e - ((n : ℝ) / (total : ℝ)) * Real.logb 2 ((n : ℝ) / (total : ℝ))) := by
  have hpos : (0 : ℝ) < (n : ℝ) / (total : ℝ) :=
    div_pos (Nat.cast_pos.mpr hn) (Nat.cast_pos.mpr ht)
  have ht0 : total ≠ 0 := by omega
  simp only [entropyStep, toNumber, JSNum.divNat, ht0, if_false, JSNum.log2, hpos, if_true,
    JSNum.mul, JSNum.sub]

theorem entropyStep_str (total : Nat) (e : JSNum) (s : String) :
    entropyStep total e (JSVal.str s) = JSNum.nan := by
  cases e <;> simp [entropyStep, toNumber, JSNum.divNat, JSNum.log2, JSNum.mul, JSNum.sub]

theorem entropyStep_nan (total : Nat) (v : JSVal) :
    entropyStep total JSNum.nan v = JSNum.nan := by
  simp [entropyStep, JSNum.sub]

theorem foldl_entropyStep_nan (total : Nat) (vs : List JSVal) :
    vs.foldl (entropyStep total) JSNum.nan = JSNum.nan := by
  induction vs with
  | nil => rfl
  | cons v vs ih => simp only [List.foldl_cons, entropyStep_nan, ih]

theorem buildFreq_replicate_proto (k : Nat) (freq : JSObject) :
    (List.replicate k "__proto__").foldl countToken freq = freq := by
  induction k with
  | zero => rfl
  | succ k ih =>
    simp only [List.replicate_succ, List.foldl_cons]
    have : countToken freq "__proto__" = freq := by simp [countToken, setProp]
    rw [this, ih]

theorem countToken_single (t : String) (m : Nat) (ht : t ≠ "__proto__") :
    countToken [(t, JSVal.num m)] t = [(t, JSVal.num (m + 1))] := by
  simp [countToken, setProp, getProp, ht, List.lookup, orZeroPlusOne, replaceProp]

theorem foldl_countToken_single (t : String) (m k : Nat) (ht : t ≠ "__proto__") :
    (List.replicate k t).foldl countToken [(t, JSVal.num m)] = [(t, JSVal.num (m + k))] := by
  induction k generalizing m with
  | zero => rfl
  | succ k ih =>
    simp only [List.replicate_succ, List.foldl_cons, countToken_single t m ht]
    rw [ih (m + 1)]
    congr 3
    omega

theorem buildFreq_replicate (t : String) (k : Nat) (ht : plainKey t) :
    buildFreq (List.replicate (k + 1) t) = [(t, JSVal.num (k + 1))] := by
  unfold buildFreq
  have hg : getProp [] t = JSVal.undefined := by
    unfold getProp
    rw [show List.lookup t ([] : JSObject) = none from rfl]
    simp only [if_neg ht.1, ht.2]
  have h1 : countToken [] t = [(t, JSVal.num 1)] := by
    unfold countToken
    rw [hg]
    simp [setProp, ht.1, orZeroPlusOne]
  simp only [List.replicate_succ, List.foldl_cons, h1]
  rw [foldl_countToken_single t 1 k ht.1]
  congr 3
  omega

/-- The order in which `Object.values` lists the counts does not change the result of the entropy
loop: the loop body commutes with itself. -/
theorem entropyStep_comm (total : Nat) (e : JSNum) (a b : JSVal) :
    entropyStep total (entropyStep total e a) b = entropyStep total (entropyStep total e b) a := by
  unfold entropyStep
  simp only
  generalize ((toNumber a).divNat total).mul ((toNumber a).divNat total).log2 = x
  generalize ((toNumber b).divNat total).mul ((toNumber b).divNat total).log2 = y
  cases e <;> cases x <;> cases y <;> simp only [JSNum.sub]
  congr 1
  ring

theorem foldl_entropyStep_perm (total : Nat) (e : JSNum) (l₁ l₂ : List JSVal)
    (h : l₁.Perm l₂) :
    l₁.foldl (entropyStep total) e = l₂.foldl (entropyStep total) e :=
  h.foldl_eq' (fun a _ b _ z => entropyStep_comm total z a b) e

theorem calculateEntropy_eq (toLowerCase : String → String) (text : String) :
    calculateEntropy toLowerCase text =
      if (tokenize toLowerCase text).length = 0 then JSNum.num 0
      else (objectValues (buildFreq (tokenize toLowerCase text))).foldl
        (entropyStep (tokenize toLowerCase text).length) (JSNum.num 0) := rfl

/-- When every token equals one token `t` that is `__proto__` or names no property of
`Object.prototype`, the entropy loop returns 0. -/
theorem entropy_of_tokens_all_eq (toLowerCase : String → String) (text t : String)
    (ht : objectPrototypeFunctions.lookup t = none)
    (hall : ∀ x ∈ tokenize toLowerCase text, x = t) :
    calculateEntropy toLowerCase text = JSNum.num 0 := by
  rw [calculateEntropy_eq]
  have hrep : tokenize toLowerCase text = List.replicate (tokenize toLowerCase text).length t :=
    List.eq_replicate_iff.mpr ⟨rfl, hall⟩
  by_cases hk : (tokenize toLowerCase text).length = 0
  · rw [if_pos hk]
  · rw [if_neg hk]
    obtain ⟨k, hk1⟩ : ∃ k, (tokenize toLowerCase text).length = k + 1 :=
      ⟨(tokenize toLowerCase text).length - 1, by omega⟩
    rw [hk1] at hrep
    rw [hk1, hrep]
    by_cases hp : t = "__proto__"
    · subst hp
      unfold buildFreq
      rw [buildFreq_replicate_proto]
      rfl
    · rw [buildFreq_replicate t k ⟨hp, ht⟩]
      simp only [objectValues, List.map_cons, List.map_nil, List.foldl_cons, List.foldl_nil]
      rw [entropyStep_num _ _ _ (Nat.succ_pos k) (Nat.succ_pos k)]
      have hne : ((k + 1 : Nat) : ℝ) ≠ 0 := Nat.cast_ne_zero.mpr (Nat.succ_ne_zero k)
      rw [div_self hne]
      simp

/-! ### The counting loop on tokens that name no property of `Object.prototype` -/

theorem replaceProp_keys (t : String) (v : JSVal) (freq : JSObject) :
    (replaceProp t v freq).map Prod.fst = freq.map Prod.fst := by
  induction freq with
  | nil => rfl
  | cons kw rest ih =>
    obtain ⟨k, w⟩ := kw
    unfold replaceProp
    by_cases hk : k = t
    · simp [hk]
    · simp [hk, ih]

theorem mem_replaceProp (t : String) (v : JSVal) (freq : JSObject)
    (hnodup : (freq.map Prod.fst).Nodup) (kv : String × JSVal)
    (hmem : kv ∈ replaceProp t v freq) : (kv ∈ freq ∧ kv.1 ≠ t) ∨ kv = (t, v) := by
  induction freq with
  | nil => simp [replaceProp] at hmem
  | cons kw rest ih =>
    obtain ⟨k, w⟩ := kw
    rw [List.map_cons, List.nodup_cons] at hnodup
    unfold replaceProp at hmem
    by_cases hk : k = t
    · rw [if_pos hk] at hmem
      rcases List.mem_cons.mp hmem with h | h
      · right
        rw [h, hk]
      · left
        refine ⟨List.mem_cons_of_mem _ h, ?_⟩
        intro hkv
        apply hnodup.1
        have hfst : kv.1 ∈ rest.map Prod.fst := List.mem_map_of_mem Prod.fst h
        rwa [hkv, ← hk] at hfst
    · rw [if_neg hk] at hmem
      rcases List.mem_cons.mp hmem with h | h
      · left
        rw [h]
        exact ⟨List.mem_cons_self _ _, hk⟩
      · rcases ih hnodup.2 h with h' | h'
        · exact Or.inl ⟨List.mem_cons_of_mem _ h'.1, h'.2⟩
        · exact Or.inr h'

theorem mem_of_lookup_eq_some (t : String) (w : JSVal) (freq : JSObject)
    (h : freq.lookup t = some w) : (t, w) ∈ freq := by
  obtain ⟨l₁, l₂, hl, _⟩ := List.lookup_eq_some_iff.mp h
  rw [hl]
  simp

theorem not_mem_keys_of_lookup_eq_none (t : String) (freq : JSObject)
    (h : freq.lookup t = none) : t ∉ freq.map Prod.fst := by
  rw [List.lookup_eq_none_iff] at h
  intro hmem
  obtain ⟨kv, hkv, hfst⟩ := List.mem_map.mp hmem
  have := h kv hkv
  simp [hfst] at this

theorem Counts_step (freq : JSObject) (seen : List String) (t : String)
    (hinv : Counts freq seen) (ht : plainKey t) : Counts (countToken freq t) (seen ++ [t]) := by
  obtain ⟨hnodup, hcover, hvals⟩ := hinv
  cases hlook : freq.lookup t with
  | none =>
    have hnot : t ∉ freq.map Prod.fst := not_mem_keys_of_lookup_eq_none t freq hlook
    have hseen : t ∉ seen := fun h => hnot (hcover t h)
    have hget : getProp freq t = JSVal.undefined := by
      unfold getProp
      rw [hlook]
      simp only [if_neg ht.1, ht.2]
    have hstep : countToken freq t = freq ++ [(t, JSVal.num 1)] := by
      unfold countToken
      rw [hget]
      simp [setProp, ht.1, hlook, orZeroPlusOne]
    rw [hstep]
    refine ⟨?_, ?_, ?_⟩
    · rw [List.map_append, List.nodup_append]
      refine ⟨hnodup, by simp, ?_⟩
      intro k hk hk'
      simp only [List.map_cons, List.map_nil, List.mem_singleton] at hk'
      exact hnot (hk' ▸ hk)
    · intro k hk
      rw [List.map_append]
      rcases List.mem_append.mp hk with h | h
      · exact List.mem_append_left _ (hcover k h)
      · exact List.mem_append_right _ (by simpa using h)
    · intro kv hkv
      rcases List.mem_append.mp hkv with h | h
      · obtain ⟨h1, h2⟩ := hvals kv h
        have hne : kv.1 ≠ t := fun he => hnot (he ▸ List.mem_map_of_mem Prod.fst h)
        refine ⟨List.mem_append_left _ h1, ?_⟩
        rw [h2, List.count_append, List.count_singleton]
        have : (t == kv.1) = false := by simpa using fun he => hne he.symm
        simp [this]
      · have hkv' : kv = (t, JSVal.num 1) := by simpa using h
        subst hkv'
        refine ⟨by simp, ?_⟩
        simp [List.count_append, List.count_eq_zero_of_not_mem hseen]
  | some w =>
    have hmem : (t, w) ∈ freq := mem_of_lookup_eq_some t w freq hlook
    obtain ⟨htseen, hw⟩ := hvals (t, w) hmem
    simp only at htseen hw
    have hget : getProp freq t = w := by
      unfold getProp
      rw [hlook]
    have hstep : countToken freq t = replaceProp t (JSVal.num (seen.count t + 1)) freq := by
      unfold countToken
      rw [hget, hw]
      simp [setProp, ht.1, hlook, orZeroPlusOne]
    rw [hstep]
    refine ⟨?_, ?_, ?_⟩
    · rw [replaceProp_keys]
      exact hnodup
    · intro k hk
      rw [replaceProp_keys]
      rcases List.mem_append.mp hk with h | h
      · exact hcover k h
      · have : k = t := by simpa using h
        rw [this]
        exact hcover t htseen
    · intro kv hkv
      rcases mem_replaceProp t _ freq hnodup kv hkv with h | h
      · obtain ⟨h1, h2⟩ := hvals kv h.1
        refine ⟨List.mem_append_left _ h1, ?_⟩
        rw [h2, List.count_append, List.count_singleton]
        have : (t == kv.1) = false := by simpa using fun he => h.2 he.symm
        simp [this]
      · subst h
        refine ⟨by simp, ?_⟩
        simp [List.count_append]

theorem Counts_foldl (ts : List String) (freq : JSObject) (seen : List String)
    (hinv : Counts freq seen) (hplain : ∀ t ∈ ts, plainKey t) :
    Counts (ts.foldl countToken freq) (seen ++ ts) := by
  induction ts generalizing freq seen with
  | nil => simpa using hinv
  | cons t ts ih =>
    have := ih (countToken freq t) (seen ++ [t])
      (Counts_step freq seen t hinv (hplain t (List.mem_cons_self _ _)))
      (fun x hx => hplain x (List.mem_cons_of_mem _ hx))
    simpa using this

theorem Counts_buildFreq (ts : List String) (hplain : ∀ t ∈ ts, plainKey t) :
    Counts (buildFreq ts) ts := by
  have := Counts_foldl ts [] [] ⟨by simp, by simp, by simp⟩ hplain
  simpa [buildFreq] using this

/-! ### The entropy of the specification -/

theorem foldl_entropyStep_counts (total : Nat) (ht : 0 < total) (c : String → Nat)
    (l : JSObject) (e : ℝ)
    (hl : ∀ kv ∈ l, kv.2 = JSVal.num (c kv.1) ∧ 0 < c kv.1) :
    (objectValues l).foldl (entropyStep total) (JSNum.num e) =
      JSNum.num (e - (l.map (fun kv =>
        ((c kv.1 : ℝ) / (total : ℝ)) * Real.logb 2 ((c kv.1 : ℝ) / (total : ℝ)))).sum) := by
  induction l generalizing e with
  | nil => simp [objectValues]
  | cons kv rest ih =>
    obtain ⟨h1, h2⟩ := hl kv (List.mem_cons_self _ _)
    simp only [objectValues, List.map_cons, List.foldl_cons, List.sum_cons]
    rw [h1, entropyStep_num total _ e ht h2]
    have := ih (e - ((c kv.1 : ℝ) / (total : ℝ)) * Real.logb 2 ((c kv.1 : ℝ) / (total : ℝ)))
      (fun x hx => hl x (List.mem_cons_of_mem _ hx))
    simp only [objectValues] at this
    rw [this]
    congr 1
    ring

/-- Away from the property names of `Object.prototype` the code computes the entropy of the
specification. -/
theorem calculateEntropy_eq_shannonEntropy (toLowerCase : String → String) (text : String)
    (hplain : ∀ t ∈ tokenize toLowerCase text, plainKey t) :
    calculateEntropy toLowerCase text = JSNum.num (shannonEntropy (tokenize toLowerCase text)) := by
  rw [calculateEntropy_eq]
  generalize tokenize toLowerCase text = ts at hplain
  by_cases hts : ts = []
  · simp [hts, shannonEntropy]
  · have hlen : 0 < ts.length := List.length_pos.mpr hts
    rw [if_neg (by omega)]
    obtain ⟨hnodup, hcover, hvals⟩ := Counts_buildFreq ts hplain
    rw [foldl_entropyStep_counts ts.length hlen (fun k => ts.count k) (buildFreq ts) 0
      (fun kv hkv => ⟨(hvals kv hkv).2, List.count_pos_iff.mpr (hvals kv hkv).1⟩)]
    unfold shannonEntropy
    rw [if_neg hts]
    congr 1
    have hkeys : ((buildFreq ts).map Prod.fst).toFinset = ts.toFinset := by
      ext k
      simp only [List.mem_toFinset]
      constructor
      · intro hk
        obtain ⟨kv, hkv, hfst⟩ := List.mem_map.mp hk
        exact hfst ▸ (hvals kv hkv).1
      · exact hcover k
    rw [← hkeys, List.sum_toFinset _ hnodup, List.map_map]
    simp [Function.comp_def]

theorem prob_pos (ts : List String) (t : String) (ht : t ∈ ts) :
    (0 : ℝ) < (ts.count t : ℝ) / (ts.length : ℝ) :=
  div_pos (Nat.cast_pos.mpr (List.count_pos_iff.mpr ht))
    (Nat.cast_pos.mpr (List.length_pos_of_mem ht))

theorem prob_le_one (ts : List String) (t : String) :
    (ts.count t : ℝ) / (ts.length : ℝ) ≤ 1 :=
  div_le_one_of_le₀ (Nat.cast_le.mpr (List.count_le_length t ts)) (Nat.cast_nonneg _)

theorem shannonEntropy_nonneg (ts : List String) : 0 ≤ shannonEntropy ts := by
  unfold shannonEntropy
  split_ifs with h
  · exact le_refl 0
  · apply neg_nonneg.mpr
    apply Finset.sum_nonpos
    intro t ht
    have hmem : t ∈ ts := List.mem_toFinset.mp ht
    exact mul_nonpos_of_nonneg_of_nonpos (prob_pos ts t hmem).le
      (Real.logb_nonpos (by norm_num) (prob_pos ts t hmem).le (prob_le_one ts t))

theorem shannonEntropy_eq_zero_iff (ts : List String) (hts : ts ≠ []) :
    shannonEntropy ts = 0 ↔ ∀ x ∈ ts, ∀ y ∈ ts, x = y := by
  unfold shannonEntropy
  rw [if_neg hts, neg_eq_zero]
  have hterm : ∀ t ∈ ts.toFinset,
      ((ts.count t : ℝ) / (ts.length : ℝ)) *
        Real.logb 2 ((ts.count t : ℝ) / (ts.length : ℝ)) ≤ 0 := by
    intro t ht
    have hmem : t ∈ ts := List.mem_toFinset.mp ht
    exact mul_nonpos_of_nonneg_of_nonpos (prob_pos ts t hmem).le
      (Real.logb_nonpos (by norm_num) (prob_pos ts t hmem).le (prob_le_one ts t))
  rw [Finset.sum_eq_zero_iff_of_nonpos hterm]
  have hlen : (0 : ℝ) < (ts.length : ℝ) := Nat.cast_pos.mpr (List.length_pos.mpr hts)
  constructor
  · intro h x hx y hy
    have hcount : ∀ t ∈ ts, ts.count t = ts.length := by
      intro t ht
      have h0 := h t (List.mem_toFinset.mpr ht)
      have hp := prob_pos ts t ht
      rcases mul_eq_zero.mp h0 with h1 | h1
      · exact absurd h1 hp.ne'
      · rw [Real.logb_eq_zero] at h1
        have h1' : (ts.count t : ℝ) / (ts.length : ℝ) = 1 := by
          rcases h1 with h1 | h1 | h1 | h1 | h1 | h1
          · norm_num at h1
          · norm_num at h1
          · norm_num at h1
          · exact absurd h1 hp.ne'
          · exact h1
          · linarith
        rw [div_eq_one_iff_eq hlen.ne'] at h1'
        exact_mod_cast h1'
    have hxall := List.count_eq_length.mp (hcount x hx)
    exact hxall y hy
  · intro h t ht
    have hmem : t ∈ ts := List.mem_toFinset.mp ht
    have hcount : ts.count t = ts.length :=
      List.count_eq_length.mpr (fun b hb => h t hmem b hb)
    rw [hcount, div_self hlen.ne']
    simp

theorem shannonEntropy_uniform (ts : List String) (m : Nat) (hts : ts ≠ [])
    (huniform : ∀ t ∈ ts, ts.count t = m) :
    shannonEntropy ts = Real.logb 2 (ts.toFinset.card : ℝ) := by
  unfold shannonEntropy
  rw [if_neg hts]
  have hlen : ts.length = ts.toFinset.card * m := by
    rw [← List.sum_toFinset_count_eq_length ts,
      Finset.sum_congr rfl (fun t ht => huniform t (List.mem_toFinset.mp ht))]
    simp
  obtain ⟨t0, ht0⟩ := List.exists_mem_of_ne_nil ts hts
  have hm : 0 < m := huniform t0 ht0 ▸ List.count_pos_iff.mpr ht0
  have hcard : 0 < ts.toFinset.card := Finset.card_pos.mpr ⟨t0, List.mem_toFinset.mpr ht0⟩
  have hm' : (m : ℝ) ≠ 0 := Nat.cast_ne_zero.mpr hm.ne'
  have hcard' : (ts.toFinset.card : ℝ) ≠ 0 := Nat.cast_ne_zero.mpr hcard.ne'
  have hp : ∀ t ∈ ts.toFinset,
      ((ts.count t : ℝ) / (ts.length : ℝ)) *
        Real.logb 2 ((ts.count t : ℝ) / (ts.length : ℝ)) =
      (1 / (ts.toFinset.card : ℝ)) * Real.logb 2 (1 / (ts.toFinset.card : ℝ)) := by
    intro t ht
    have hq : (ts.count t : ℝ) / (ts.length : ℝ) = 1 / (ts.toFinset.card : ℝ) := by
      rw [huniform t (List.mem_toFinset.mp ht), hlen, Nat.cast_mul]
      field_simp
      ring
    rw [hq]
  rw [Finset.sum_congr rfl hp, Finset.sum_const, nsmul_eq_mul, one_div, Real.logb_inv]
  field_simp

theorem shannonEntropy_le_logb_card (ts : List String) (hts : ts ≠ []) :
    shannonEntropy ts ≤ Real.logb 2 (ts.toFinset.card : ℝ) := by
  unfold shannonEntropy
  rw [if_neg hts]
  obtain ⟨t0, ht0⟩ := List.exists_mem_of_ne_nil ts hts
  have hcard : 0 < ts.toFinset.card := Finset.card_pos.mpr ⟨t0, List.mem_toFinset.mpr ht0⟩
  have hd : (0 : ℝ) < (ts.toFinset.card : ℝ) := Nat.cast_pos.mpr hcard
  have hlen : (0 : ℝ) < (ts.length : ℝ) := Nat.cast_pos.mpr (List.length_pos.mpr hts)
  have hlog2 : (0 : ℝ) < Real.log 2 := Real.log_pos (by norm_num)
  have hsum1 : ∑ t in ts.toFinset, (ts.count t : ℝ) / (ts.length : ℝ) = 1 := by
    rw [← Finset.sum_div, ← Nat.cast_sum, List.sum_toFinset_count_eq_length, div_self hlen.ne']
  -- each term: `p * (-log p - log d) ≤ 1/d - p`
  have hterm : ∀ t ∈ ts.toFinset,
      ((ts.count t : ℝ) / (ts.length : ℝ)) *
        (-Real.log ((ts.count t : ℝ) / (ts.length : ℝ)) - Real.log (ts.toFinset.card : ℝ)) ≤
      1 / (ts.toFinset.card : ℝ) - (ts.count t : ℝ) / (ts.length : ℝ) := by
    intro t ht
    have hp := prob_pos ts t (List.mem_toFinset.mp ht)
    set p := (ts.count t : ℝ) / (ts.length : ℝ) with hpdef
    have hx : 0 < 1 / ((ts.toFinset.card : ℝ) * p) := by positivity
    have hle := Real.log_le_sub_one_of_pos hx
    rw [one_div, Real.log_inv, Real.log_mul hd.ne' hp.ne'] at hle
    have hmul := mul_le_mul_of_nonneg_left hle hp.le
    have hrhs : p * (((ts.toFinset.card : ℝ) * p)⁻¹ - 1) = 1 / (ts.toFinset.card : ℝ) - p := by
      field_simp
      ring
    rw [hrhs] at hmul
    calc p * (-Real.log p - Real.log (ts.toFinset.card : ℝ))
        = p * -(Real.log (ts.toFinset.card : ℝ) + Real.log p) := by ring
      _ ≤ 1 / (ts.toFinset.card : ℝ) - p := hmul
  have hsum := Finset.sum_le_sum hterm
  rw [Finset.sum_sub_distrib, hsum1, Finset.sum_const, nsmul_eq_mul,
    mul_one_div_cancel hd.ne', sub_self] at hsum
  -- rewrite the goal in natural logarithms
  have hS : ∑ t in ts.toFinset, ((ts.count t : ℝ) / (ts.length : ℝ)) *
        (-Real.log ((ts.count t : ℝ) / (ts.length : ℝ)) - Real.log (ts.toFinset.card : ℝ)) =
      -(∑ t in ts.toFinset, ((ts.count t : ℝ) / (ts.length : ℝ)) *
        Real.log ((ts.count t : ℝ) / (ts.length : ℝ))) - Real.log (ts.toFinset.card : ℝ) := by
    simp only [mul_sub, Finset.sum_sub_distrib, ← Finset.sum_mul, hsum1, mul_neg,
      Finset.sum_neg_distrib, one_mul]
  have hL : ∑ t in ts.toFinset, ((ts.count t : ℝ) / (ts.length : ℝ)) *
        Real.logb 2 ((ts.count t : ℝ) / (ts.length : ℝ)) =
      (∑ t in ts.toFinset, ((ts.count t : ℝ) / (ts.length : ℝ)) *
        Real.log ((ts.count t : ℝ) / (ts.length : ℝ))) / Real.log 2 := by
    simp only [Real.logb, ← mul_div_assoc, ← Finset.sum_div]
  rw [hS] at hsum
  rw [hL, Real.logb, ← neg_div, div_le_div_iff_of_pos_right hlog2]
  linarith

/-- Away from the property names of `Object.prototype`, and for a text with at least one token,
`calculateEntropy` returns a real number `h` with `0 ≤ h ≤ log2 d ≤ log2 N` (`d` distinct
tokens, `N` tokens), and `h = 0` exactly when all tokens are identical. -/
theorem calculateEntropy_bounds_of_plainKey (toLowerCase : String → String) (text : String)
    (hplain : ∀ t ∈ tokenize toLowerCase text, plainKey t)
    (hne : tokenize toLowerCase text ≠ []) :
    ∃ h : ℝ, calculateEntropy toLowerCase text = JSNum.num h ∧ 0 ≤ h ∧
      (h = 0 ↔ ∀ x ∈ tokenize toLowerCase text, ∀ y ∈ tokenize toLowerCase text, x = y) ∧
      h ≤ Real.logb 2 ((tokenize toLowerCase text).toFinset.card : ℝ) ∧
      Real.logb 2 ((tokenize toLowerCase text).toFinset.card : ℝ) ≤
        Real.logb 2 ((tokenize toLowerCase text).length : ℝ) := by
  refine ⟨_, calculateEntropy_eq_shannonEntropy toLowerCase text hplain,
    shannonEntropy_nonneg _, shannonEntropy_eq_zero_iff _ hne,
    shannonEntropy_le_logb_card _ hne, ?_⟩
  obtain ⟨t0, ht0⟩ := List.exists_mem_of_ne_nil _ hne
  have hcard : 0 < (tokenize toLowerCase text).toFinset.card :=
    Finset.card_pos.mpr ⟨t0, List.mem_toFinset.mpr ht0⟩
  exact Real.logb_le_logb_of_le (by norm_num) (Nat.cast_pos.mpr hcard)
    (Nat.cast_le.mpr (List.toFinset_card_le _))

/-- Away from the property names of `Object.prototype`, a text whose distinct tokens all occur
the same number of times has entropy `log2 k`, `k` the number of distinct tokens. -/
theorem calculateEntropy_uniform_of_plainKey (toLowerCase : String → String) (text : String)
    (m : Nat) (hplain : ∀ t ∈ tokenize toLowerCase text, plainKey t)
    (hne : tokenize toLowerCase text ≠ [])
    (huniform : ∀ t ∈ tokenize toLowerCase text, (tokenize toLowerCase text).count t = m) :
    calculateEntropy toLowerCase text =
      JSNum.num (Real.logb 2 ((tokenize toLowerCase text).toFinset.card : ℝ)) := by
  rw [calculateEntropy_eq_shannonEntropy toLowerCase text hplain,
    shannonEntropy_uniform _ m hne huniform]

/-! ### Rank estimation and tier selection -/

theorem estimatedRank_eq_rankTable (toLowerCase : String → String) (title body : String) :
    (analyzeComplexity toLowerCase title body).estimatedRank =
      rankTable (analyzeComplexity toLowerCase title body).entropy
        (analyzeComplexity toLowerCase title body).technicalCount
        (analyzeComplexity toLowerCase title body).uncertaintyCount := rfl

theorem rankTable_mem (entropy : JSNum) (technicalCount uncertaintyCount : Nat) :
    rankTable entropy technicalCount uncertaintyCount ∈ [2, 3, 5, 7, 9] := by
  unfold rankTable
  split_ifs <;> simp

theorem rankTable_of_technical (entropy : JSNum) (technicalCount uncertaintyCount : Nat)
    (h : 6 ≤ technicalCount) : rankTable entropy technicalCount uncertaintyCount = 9 := by
  unfold rankTable
  have h5 : technicalCount > 5 := by omega
  simp [h5]

theorem rankTable_of_low (entropy : JSNum) (technicalCount uncertaintyCount : Nat)
    (he : entropy.le 2) (ht : technicalCount ≤ 1) (hu : uncertaintyCount ≤ 3) :
    rankTable entropy technicalCount uncertaintyCount = 2 := by
  have hgt : ∀ t : ℝ, 2 ≤ t → ¬ entropy.gt t := by
    intro t h2
    cases entropy with
    | num r =>
      have hr : r ≤ 2 := he
      exact fun h => absurd (show t < r from h) (by linarith)
    | nan => exact fun h => h
  have h1 := hgt 4.5 (by norm_num)
  have h2 := hgt 3.8 (by norm_num)
  have h3 := hgt 3.0 (by norm_num)
  have h4 := hgt 2.0 (by norm_num)
  have ht5 : ¬ technicalCount > 5 := by omega
  have ht3 : ¬ technicalCount > 3 := by omega
  have ht1 : ¬ technicalCount > 1 := by omega
  have hu3 : ¬ uncertaintyCount > 3 := by omega
  unfold rankTable
  simp only [h1, h2, h3, h4, ht5, ht3, ht1, hu3, or_self, if_false]

theorem selectedAgent_mem (r : Nat) : selectedAgent r ∈ AGENT_TIERS := by
  unfold selectedAgent
  cases h : AGENT_TIERS.find? (fun agent => decide (r ≥ agent.minRank)) with
  | none => exact List.get_mem _ _ _
  | some a => exact List.mem_of_find?_eq_some h

theorem selectedAgent_tier (r : Nat) :
    (selectedAgent r).tier =
      if 9 ≤ r then 1 else if 7 ≤ r then 2 else if 5 ≤ r then 3 else if 4 ≤ r then 4
      else if 3 ≤ r then 5 else 6 := by
  by_cases h9 : 9 ≤ r
  · have : selectedAgent r = AGENT_TIERS.get ⟨0, by decide⟩ := by
      simp [selectedAgent, AGENT_TIERS, h9]
    rw [this, if_pos h9]
    rfl
  · have hlt : r < 9 := by omega
    interval_cases r <;> rfl

/-! ### Regular-expression searches of `extractOptions` -/

theorem lazyAny_some {α : Type} (rest : List Char → Option α) (text : List Char) (r : α)
    (h : lazyAny rest text = some r) : ∃ suffix, rest suffix = some r := by
  induction text with
  | nil => exact ⟨[], h⟩
  | cons c cs ih =>
    unfold lazyAny at h
    cases hr : rest (c :: cs) with
    | some x =>
      rw [hr] at h
      exact ⟨c :: cs, hr.trans h⟩
    | none =>
      rw [hr] at h
      by_cases hl : isLineTerminator c = true
      · simp [hl] at h
      · simp only [hl] at h
        exact ih h

theorem searchFrom_some {α : Type} (pattern : List Char → Option α) (text : List Char) (r : α)
    (h : searchFrom pattern text = some r) : ∃ suffix, pattern suffix = some r := by
  induction text with
  | nil => exact ⟨[], h⟩
  | cons c cs ih =>
    unfold searchFrom at h
    cases hr : pattern (c :: cs) with
    | some x =>
      rw [hr] at h
      exact ⟨c :: cs, hr.trans h⟩
    | none =>
      rw [hr] at h
      exact ih h

theorem routeTask_of_free (toLowerCase : String → String) (title body : String)
    (options : RoutingOptions) (h : options.costTolerance = some freeOnly) :
    routeTask toLowerCase title body options =
      buildResponse (AGENT_TIERS.get ⟨4, by decide⟩)
        (analyzeComplexity toLowerCase title body) "Cost constraint: free only" := by
  unfold routeTask
  simp only [h, if_true, freeAgent_lookup]

/-! ### Reasoning strings, agent identifiers and manual ranks -/

theorem intercalate_go_data (sep : String) (l : List String) (acc : String) :
    ∃ tail, (String.intercalate.go acc sep l).data = acc.data ++ tail := by
  induction l generalizing acc with
  | nil => exact ⟨[], by simp [String.intercalate.go]⟩
  | cons a rest ih =>
    obtain ⟨tail, ht⟩ := ih (acc ++ sep ++ a)
    refine ⟨sep.data ++ a.data ++ tail, ?_⟩
    rw [String.intercalate.go, ht]
    simp [String.data_append, List.append_assoc]

theorem intercalate_cons_data (sep b : String) (rest : List String) :
    ∃ tail, (sep.intercalate (b :: rest)).data = b.data ++ tail :=
  intercalate_go_data sep rest b

theorem intercalate_cons_cons_data (sep b c : String) (rest : List String) :
    ∃ tail, (sep.intercalate (b :: c :: rest)).data = b.data ++ sep.data ++ c.data ++ tail := by
  obtain ⟨tail, ht⟩ := intercalate_go_data sep rest (b ++ sep ++ c)
  refine ⟨tail, ?_⟩
  show (String.intercalate.go (b ++ sep ++ c) sep rest).data = _
  rw [ht]
  simp [String.data_append, List.append_assoc]

theorem startsWith_append (p tail : List Char) : startsWith (p ++ tail) p = true := by
  induction p with
  | nil => cases tail <;> rfl
  | cons c cs ih => simp [startsWith, ih]

theorem includesChars_of_startsWith (front l needle : List Char)
    (h : startsWith l needle = true) : includesChars (front ++ l) needle = true := by
  induction front with
  | nil =>
    cases l with
    | nil =>
      cases needle with
      | nil => rfl
      | cons _ _ => simp [startsWith] at h
    | cons c cs => simp [includesChars, h]
  | cons c cs ih => simp [includesChars, ih]

theorem getReasoning_eq (agent : AgentTier) (analysis : Analysis) :
    getReasoning agent analysis =
      ". ".intercalate (reasoningSentences analysis.estimatedRank analysis.technicalCount
        analysis.uncertaintyCount) := by
  unfold getReasoning reasoningSentences bandSentence technicalClause uncertaintyClause
  by_cases h1 : analysis.technicalCount > 3 <;> by_cases h2 : analysis.uncertaintyCount > 0 <;>
    simp only [h1, h2, if_true, if_false, List.append_nil, List.singleton_append,
      List.cons_append, List.nil_append]

theorem bandSentence_take (rank : Nat) :
    (bandSentence rank).data.take 3 ∈
      ["Cri".data, "Com".data, "Sta".data, "Sim".data, "Tri".data] := by
  unfold bandSentence
  split_ifs <;> decide

theorem bandSentence_length (rank : Nat) : 3 ≤ (bandSentence rank).data.length := by
  unfold bandSentence
  split_ifs <;> decide

theorem getReasoning_ne_cost (agent : AgentTier) (analysis : Analysis) :
    getReasoning agent analysis ≠ "Cost constraint: free only" := by
  intro h
  rw [getReasoning_eq] at h
  obtain ⟨tail, ht⟩ := intercalate_cons_data ". " (bandSentence analysis.estimatedRank)
    ((if analysis.technicalCount > 3 then [technicalClause analysis.technicalCount] else []) ++
      (if analysis.uncertaintyCount > 0 then [uncertaintyClause analysis.uncertaintyCount]
        else []))
  have hlist : reasoningSentences analysis.estimatedRank analysis.technicalCount
      analysis.uncertaintyCount = bandSentence analysis.estimatedRank ::
        ((if analysis.technicalCount > 3 then [technicalClause analysis.technicalCount]
          else []) ++
        (if analysis.uncertaintyCount > 0 then [uncertaintyClause analysis.uncertaintyCount]
          else [])) := by
    simp [reasoningSentences]
  rw [hlist] at h
  rw [h] at ht
  have htake := congrArg (List.take 3) ht
  rw [List.take_append_of_le_length (bandSentence_length _)] at htake
  have hmem := bandSentence_take analysis.estimatedRank
  rw [← htake] at hmem
  revert hmem
  decide

theorem toString_data_injective (n m : Nat) (h : (toString n).data = (toString m).data) :
    n = m := by
  have hp := congrArg parseInt h
  rwa [parseInt_repr, parseInt_repr] at hp

theorem technicalClause_data (n : Nat) :
    (technicalClause n).data =
      "High technical complexity (".data ++ ((toString n).data ++ " technical terms)".data) := by
  simp [technicalClause, String.data_append]

theorem uncertaintyClause_data (n : Nat) :
    (uncertaintyClause n).data =
      "Uncertainty present (".data ++ ((toString n).data ++ " markers)".data) := by
  simp [uncertaintyClause, String.data_append]

theorem technicalClause_injective (n m : Nat) (h : technicalClause n = technicalClause m) :
    n = m := by
  have hd := congrArg String.data h
  rw [technicalClause_data, technicalClause_data] at hd
  exact toString_data_injective n m (List.append_cancel_right (List.append_cancel_left hd))

theorem uncertaintyClause_injective (n m : Nat) (h : uncertaintyClause n = uncertaintyClause m) :
    n = m := by
  have hd := congrArg String.data h
  rw [uncertaintyClause_data, uncertaintyClause_data] at hd
  exact toString_data_injective n m (List.append_cancel_right (List.append_cancel_left hd))

theorem bandSentence_head (rank : Nat) :
    (bandSentence rank).data.head? ∈ [some 'C', some 'S', some 'T'] := by
  unfold bandSentence
  split_ifs <;> decide

theorem technicalClause_head (n : Nat) : (technicalClause n).data.head? = some 'H' := by
  rw [technicalClause_data]
  rfl

theorem uncertaintyClause_head (n : Nat) : (uncertaintyClause n).data.head? = some 'U' := by
  rw [uncertaintyClause_data]
  rfl

theorem technicalClause_ne_bandSentence (n rank : Nat) :
    technicalClause n ≠ bandSentence rank := by
  intro h
  have hm := bandSentence_head rank
  rw [← h, technicalClause_head] at hm
  revert hm
  decide

theorem uncertaintyClause_ne_bandSentence (n rank : Nat) :
    uncertaintyClause n ≠ bandSentence rank := by
  intro h
  have hm := bandSentence_head rank
  rw [← h, uncertaintyClause_head] at hm
  revert hm
  decide

theorem technicalClause_ne_uncertaintyClause (n m : Nat) :
    technicalClause n ≠ uncertaintyClause m := by
  intro h
  have hh := technicalClause_head n
  rw [h, uncertaintyClause_head] at hh
  revert hh
  decide

theorem technicalClause_mem (n rank technicalCount uncertaintyCount : Nat) :
    technicalClause n ∈ reasoningSentences rank technicalCount uncertaintyCount ↔
      technicalCount = n ∧ n > 3 := by
  unfold reasoningSentences
  simp only [List.mem_append, List.mem_singleton]
  constructor
  · rintro ((h | h) | h)
    · exact absurd h (technicalClause_ne_bandSentence n rank)
    · by_cases ht : technicalCount > 3
      · rw [if_pos ht, List.mem_singleton] at h
        have := technicalClause_injective _ _ h
        omega
      · rw [if_neg ht] at h
        exact absurd h (List.not_mem_nil _)
    · by_cases hu : uncertaintyCount > 0
      · rw [if_pos hu, List.mem_singleton] at h
        exact absurd h (technicalClause_ne_uncertaintyClause n uncertaintyCount)
      · rw [if_neg hu] at h
        exact absurd h (List.not_mem_nil _)
  · rintro ⟨rfl, hn⟩
    exact Or.inl (Or.inr (by rw [if_pos hn]; exact List.mem_singleton.mpr rfl))

theorem uncertaintyClause_mem (m rank technicalCount uncertaintyCount : Nat) :
    uncertaintyClause m ∈ reasoningSentences rank technicalCount uncertaintyCount ↔
      uncertaintyCount = m ∧ m > 0 := by
  unfold reasoningSentences
  simp only [List.mem_append, List.mem_singleton]
  constructor
  · rintro ((h | h) | h)
    · exact absurd h (uncertaintyClause_ne_bandSentence m rank)
    · by_cases ht : technicalCount > 3
      · rw [if_pos ht, List.mem_singleton] at h
        exact absurd h.symm (technicalClause_ne_uncertaintyClause technicalCount m)
      · rw [if_neg ht] at h
        exact absurd h (List.not_mem_nil _)
    · by_cases hu : uncertaintyCount > 0
      · rw [if_pos hu, List.mem_singleton] at h
        have := uncertaintyClause_injective _ _ h
        omega
      · rw [if_neg hu] at h
        exact absurd h (List.not_mem_nil _)
  · rintro ⟨rfl, hm⟩
    exact Or.inr (by rw [if_pos hm]; exact List.mem_singleton.mpr rfl)

theorem routeTask_analysis (toLowerCase : String → String) (title body : String)
    (options : RoutingOptions) :
    (routeTask toLowerCase title body options).analysis =
      analyzeComplexity toLowerCase title body := by
  by_cases h : options.costTolerance = some freeOnly
  · rw [routeTask_of_free _ _ _ _ h]
    rfl
  · rw [routeTask_of_not_free _ _ _ _ h]

theorem routeTask_reasoning_of_not_free (toLowerCase : String → String) (title body : String)
    (options : RoutingOptions) (h : options.costTolerance ≠ some freeOnly) :
    (routeTask toLowerCase title body options).reasoning =
      ". ".intercalate (reasoningSentences
        (analyzeComplexity toLowerCase title body).estimatedRank
        (analyzeComplexity toLowerCase title body).technicalCount
        (analyzeComplexity toLowerCase title body).uncertaintyCount) := by
  rw [routeTask_of_not_free _ _ _ _ h]
  exact getReasoning_eq
    (selectedAgent (targetRank options (analyzeComplexity toLowerCase title body))) _

theorem agentIdOf_eq_agentIdFormat (agent : AgentTier) :
    agentIdOf agent = agentIdFormat agent := by
  unfold agentIdOf agentIdFormat modelPrefix
  have hfun : (fun c : Char => c != '-') = (fun c : Char => decide (c ≠ '-')) := by
    funext c
    by_cases hc : c = '-' <;> simp [hc]
  rw [hfun]

theorem routeTask_agent_mem (toLowerCase : String → String) (title body : String)
    (options : RoutingOptions) :
    (routeTask toLowerCase title body options).agent ∈ AGENT_TIERS := by
  by_cases h : options.costTolerance = some freeOnly
  · rw [routeTask_of_free _ _ _ _ h]
    exact List.get_mem _ _ _
  · rw [routeTask_of_not_free _ _ _ _ h]
    exact selectedAgent_mem _

theorem routeTask_agentId_eq (toLowerCase : String → String) (title body : String)
    (options : RoutingOptions) :
    (routeTask toLowerCase title body options).agentId =
      agentIdOf (routeTask toLowerCase title body options).agent := by
  by_cases h : options.costTolerance = some freeOnly
  · rw [routeTask_of_free _ _ _ _ h]
    rfl
  · rw [routeTask_of_not_free _ _ _ _ h]

theorem targetRank_R0 (costTolerance : Option String) (analysis : Analysis) :
    targetRank { difficulty := some "R0", costTolerance := costTolerance } analysis =
      analysis.estimatedRank := by
  have hm : manualRank { difficulty := some "R0", costTolerance := costTolerance } = some 0 := by
    show (if ("R0" : String) = "" then none
      else some (parseInt ((matchRDigits "R0".data).getD "0".data))) = some 0
    decide
  unfold targetRank
  rw [hm]
  rfl

theorem none_ne_freeOnly : (none : Option String) ≠ some freeOnly := by decide

theorem manualRank_of_absent (options : RoutingOptions) (h : options.difficulty = none) :
    manualRank options = none := by
  unfold manualRank
  rw [h]

theorem targetRank_eq_four (options : RoutingOptions) (toLowerCase : String → String)
    (title body : String)
    (h : targetRank options (analyzeComplexity toLowerCase title body) = 4) :
    manualRank options = some 4 := by
  have hmem := rankTable_mem (analyzeComplexity toLowerCase title body).entropy
    (analyzeComplexity toLowerCase title body).technicalCount
    (analyzeComplexity toLowerCase title body).uncertaintyCount
  rw [← estimatedRank_eq_rankTable] at hmem
  have hne : (analyzeComplexity toLowerCase title body).estimatedRank ≠ 4 := by
    intro h4
    rw [h4] at hmem
    revert hmem
    decide
  unfold targetRank at h
  cases hm : manualRank options with
  | none =>
    rw [hm] at h
    exact absurd h hne
  | some r =>
    rw [hm] at h
    by_cases hr : r = 0
    · simp only [hr, if_true] at h
      exact absurd h hne
    · simp only [hr, if_false] at h
      rw [h]

theorem selectedAgent_tier_eq_four (r : Nat) (h : (selectedAgent r).tier = 4) : r = 4 := by
  rw [selectedAgent_tier] at h
  split_ifs at h <;> omega

/-! ### The cost tolerance extracted by `extractOptions` -/

theorem startsWithIgnoreCase_take (text p : List Char)
    (h : startsWithIgnoreCase text p = true) :
    (text.take p.length).map Char.toUpper = p.map Char.toUpper := by
  induction p generalizing text with
  | nil => simp
  | cons q qs ih =>
    cases text with
    | nil => simp [startsWithIgnoreCase] at h
    | cons c cs =>
      simp only [startsWithIgnoreCase, eqIgnoreCase, Bool.and_eq_true, beq_iff_eq] at h
      simp only [List.length_cons, List.take_succ_cons, List.map_cons, h.1, ih cs h.2]

theorem costGroup_some (text cap : List Char) (h : costGroup text = some cap) :
    ∃ phrase ∈ costPhrases, cap.map Char.toUpper = phrase.data.map Char.toUpper := by
  unfold costGroup at h
  obtain ⟨phrase, hmem, hp⟩ := List.exists_of_findSome?_eq_some h
  refine ⟨phrase, hmem, ?_⟩
  by_cases hs : startsWithIgnoreCase text phrase.data = true
  · rw [if_pos hs] at hp
    rw [← Option.some.inj hp]
    exact startsWithIgnoreCase_take text phrase.data hs
  · rw [if_neg hs] at hp
    exact absurd hp (by simp)

theorem costPattern_some (text cap : List Char) (h : costPattern text = some cap) :
    ∃ phrase ∈ costPhrases, cap.map Char.toUpper = phrase.data.map Char.toUpper := by
  unfold costPattern at h
  by_cases hs : startsWithIgnoreCase text "Cost Tolerance".data = true
  · rw [if_pos hs] at h
    obtain ⟨suffix, hsuf⟩ := lazyAny_some _ _ _ h
    cases suffix with
    | nil => simp [colonThenCost] at hsuf
    | cons c rest =>
      by_cases hc : c = ':'
      · simp only [colonThenCost, hc, if_true] at hsuf
        obtain ⟨suffix', hsuf'⟩ := lazyAny_some _ _ _ hsuf
        exact costGroup_some suffix' cap hsuf'
      · simp only [colonThenCost, hc, if_false] at hsuf
        exact absurd hsuf (by simp)
  · rw [if_neg hs] at h
    exact absurd h (by simp)

theorem extractOptions_costTolerance_some (body s : String)
    (h : (extractOptions body).costTolerance = some s) :
    ∃ phrase ∈ costPhrases, s.data.map Char.toUpper = phrase.data.map Char.toUpper := by
  unfold extractOptions at h
  simp only [Option.map_eq_some'] at h
  obtain ⟨cap, hcap, hs⟩ := h
  obtain ⟨suffix, hsuf⟩ := searchFrom_some _ _ _ hcap
  obtain ⟨phrase, hmem, hp⟩ := costPattern_some suffix cap hsuf
  exact ⟨phrase, hmem, by rw [← hs]; exact hp⟩

theorem extractOptions_costTolerance_ne_free (body : String) :
    (extractOptions body).costTolerance ≠ some freeOnly := by
  intro h
  obtain ⟨phrase, hmem, hp⟩ := extractOptions_costTolerance_some body freeOnly h
  revert hp
  revert phrase
  decide

/-! ### Binary64 arithmetic -/

theorem Binary64.toRat_nonneg (x : Binary64) : 0 ≤ x.toRat := by
  unfold Binary64.toRat
  positivity

theorem Binary64.toRat_zero : (⟨0, 0⟩ : Binary64).toRat = 0 := by
  simp [Binary64.toRat]

theorem Binary64.ofDecimal_zero : Binary64.ofDecimal 0 = ⟨0, 0⟩ := by
  simp [Binary64.ofDecimal, Binary64.round]

theorem Binary64.mul_zero (x : Binary64) : Binary64.mul x ⟨0, 0⟩ = ⟨0, 0⟩ := by
  simp [Binary64.mul, Binary64.round]

theorem Binary64.ofDecimal_eq_round (q : ℚ) (n d : Nat) (hn : q.num.natAbs = n)
    (hd : q.den = d) : Binary64.ofDecimal q = Binary64.round n d 0 := by
  unfold Binary64.ofDecimal
  rw [hn, hd]

theorem Binary64.ofDecimal_three_halves :
    Binary64.ofDecimal (3 / 2) = Binary64.round 3 2 0 :=
  Binary64.ofDecimal_eq_round _ 3 2 (by norm_num) (by norm_num)

theorem Binary64.ofDecimal_million :
    Binary64.ofDecimal 1000000 = Binary64.round 1000000 1 0 :=
  Binary64.ofDecimal_eq_round _ 1000000 1 (by norm_num) (by norm_num)

set_option maxRecDepth 20000 in
/-- The products `10 * m` of the time estimate are exact in binary64. -/
theorem Binary64.time_exact (m : ℚ) (hm : m ∈ tierMultipliers) :
    (Binary64.mul (Binary64.ofDecimal 10) (Binary64.ofDecimal m)).toRat = 10 * m := by
  have h10 : Binary64.ofDecimal 10 = Binary64.round 10 1 0 :=
    Binary64.ofDecimal_eq_round _ 10 1 (by norm_num) (by norm_num)
  rw [h10]
  simp only [tierMultipliers, List.mem_cons, List.mem_singleton, List.not_mem_nil, or_false]
    at hm
  rcases hm with rfl | rfl | rfl | rfl | rfl | rfl
  · rw [Binary64.ofDecimal_eq_round 1 1 1 (by norm_num) (by norm_num),
      show Binary64.mul (Binary64.round 10 1 0) (Binary64.round 1 1 0) =
        ⟨5629499534213120, -49⟩ by decide]
    norm_num [Binary64.toRat]
  · rw [Binary64.ofDecimal_three_halves,
      show Binary64.mul (Binary64.round 10 1 0) (Binary64.round 3 2 0) =
        ⟨8444249301319680, -49⟩ by decide]
    norm_num [Binary64.toRat]
  · rw [Binary64.ofDecimal_eq_round 2 2 1 (by norm_num) (by norm_num),
      show Binary64.mul (Binary64.round 10 1 0) (Binary64.round 2 1 0) =
        ⟨5629499534213120, -48⟩ by decide]
    norm_num [Binary64.toRat]
  · rw [Binary64.ofDecimal_eq_round 3 3 1 (by norm_num) (by norm_num),
      show Binary64.mul (Binary64.round 10 1 0) (Binary64.round 3 1 0) =
        ⟨8444249301319680, -48⟩ by decide]
    norm_num [Binary64.toRat]
  · rw [Binary64.ofDecimal_eq_round 4 4 1 (by norm_num) (by norm_num),
      show Binary64.mul (Binary64.round 10 1 0) (Binary64.round 4 1 0) =
        ⟨5629499534213120, -47⟩ by decide]
    norm_num [Binary64.toRat]
  · rw [Binary64.ofDecimal_eq_round 5 5 1 (by norm_num) (by norm_num),
      show Binary64.mul (Binary64.round 10 1 0) (Binary64.round 5 1 0) =
        ⟨7036874417766400, -47⟩ by decide]
    norm_num [Binary64.toRat]

theorem manualRank_R4 : manualRank { difficulty := some "R4" } = some 4 := by decide

theorem manualRank_R9 : manualRank { difficulty := some "R9" } = some 9 := by decide

set_option maxRecDepth 20000 in
/-- The cost estimate of `routeTask('x', '', {difficulty: 'R4'})`: the double
`7.500000000000001e-8`, which is not the exact product `3/40000000`. -/
theorem costEstimate_R4 :
    (routeTask asciiLower "x" "" { difficulty := some "R4" }).costEstimate =
      5666839779443575 / 2 ^ 76 := by
  rw [routeTask_of_not_free _ _ _ _ (by decide)]
  have ht : targetRank { difficulty := some "R4" } (analyzeComplexity asciiLower "x" "") = 4 := by
    unfold targetRank
    rw [manualRank_R4]
    rfl
  simp only [ht]
  have hb : Binary64.mul
      (Binary64.div
        (Binary64.mul
          (Binary64.add (Binary64.ofNat (jsLength "x")) (Binary64.ofNat (jsLength "")))
          (Binary64.ofDecimal (3 / 2)))
        (Binary64.ofDecimal 1000000))
      (Binary64.ofDecimal (5 / 100)) = ⟨5666839779443575, -76⟩ := by
    rw [Binary64.ofDecimal_three_halves, Binary64.ofDecimal_million,
      Binary64.ofDecimal_eq_round (5 / 100) 1 20 (by norm_num) (by norm_num)]
    decide
  show (Binary64.mul
      (Binary64.div
        (Binary64.mul
          (Binary64.add (Binary64.ofNat (jsLength "x")) (Binary64.ofNat (jsLength "")))
          (Binary64.ofDecimal (3 / 2)))
        (Binary64.ofDecimal 1000000))
      (Binary64.ofDecimal (5 / 100))).toRat = _
  rw [hb]
  norm_num [Binary64.toRat]

set_option maxRecDepth 20000 in
/-- The cost estimate of `routeTask('abc', 'defg', {difficulty: 'R9'})`: the double
`0.00015749999999999998`, which is not the exact product `63/400000`. -/
theorem costEstimate_R9 :
    (routeTask asciiLower "abc" "defg" { difficulty := some "R9" }).costEstimate =
      5810724383218508 / 2 ^ 65 := by
  rw [routeTask_of_not_free _ _ _ _ (by decide)]
  have ht : targetRank { difficulty := some "R9" }
      (analyzeComplexity asciiLower "abc" "defg") = 9 := by
    unfold targetRank
    rw [manualRank_R9]
    rfl
  simp only [ht]
  have hb : Binary64.mul
      (Binary64.div
        (Binary64.mul
          (Binary64.add (Binary64.ofNat (jsLength "abc")) (Binary64.ofNat (jsLength "defg")))
          (Binary64.ofDecimal (3 / 2)))
        (Binary64.ofDecimal 1000000))
      (Binary64.ofDecimal 15) = ⟨5810724383218508, -65⟩ := by
    rw [Binary64.ofDecimal_three_halves, Binary64.ofDecimal_million,
      Binary64.ofDecimal_eq_round 15 15 1 (by norm_num) (by norm_num)]
    decide
  show (Binary64.mul
      (Binary64.div
        (Binary64.mul
          (Binary64.add (Binary64.ofNat (jsLength "abc")) (Binary64.ofNat (jsLength "defg")))
          (Binary64.ofDecimal (3 / 2)))
        (Binary64.ofDecimal 1000000))
      (Binary64.ofDecimal 15)).toRat = _
  rw [hb]
  norm_num [Binary64.toRat]

/-! ## Claims -/

/-- C1: when `costTolerance` is the literal `Free only (Tier 5-6)`, whatever the title, the body
and `difficulty` are, `routeTask` returns the tier-5 catalog entry `FreeAgent`, cost estimate 0,
time estimate 10 and the reasoning `Cost constraint: free only`. -/
theorem routeTask_free_only (toLowerCase : String → String) (title body : String)
    (difficulty : Option String) :
    (routeTask toLowerCase title body
        { difficulty := difficulty, costTolerance := some "Free only (Tier 5-6)" }).agent =
      AGENT_TIERS.get ⟨4, by decide⟩ ∧
    (routeTask toLowerCase title body
        { difficulty := difficulty, costTolerance := some "Free only (Tier 5-6)" }).agent.tier
      = 5 ∧
    (routeTask toLowerCase title body
        { difficulty := difficulty, costTolerance := some "Free only (Tier 5-6)" }).agent.name
      = "FreeAgent" ∧
    (routeTask toLowerCase title body
        { difficulty := difficulty,
          costTolerance := some "Free only (Tier 5-6)" }).costEstimate = 0 ∧
    (routeTask toLowerCase title body
        { difficulty := difficulty,
          costTolerance := some "Free only (Tier 5-6)" }).timeEstimate = 10 ∧
    (routeTask toLowerCase title body
        { difficulty := difficulty,
          costTolerance := some "Free only (Tier 5-6)" }).reasoning
      = "Cost constraint: free only" := by
  have hfree : (some "Free only (Tier 5-6)" : Option String) = some freeOnly := rfl
  have hr : routeTask toLowerCase title body
      { difficulty := difficulty, costTolerance := some "Free only (Tier 5-6)" } =
      buildResponse (AGENT_TIERS.get ⟨4, by decide⟩)
        (analyzeComplexity toLowerCase title body) "Cost constraint: free only" := by
    unfold routeTask
    simp only [hfree, if_true, freeAgent_lookup]
  rw [hr]
  exact ⟨rfl, rfl, rfl, rfl, rfl, rfl⟩

/-- C2: for `n ≥ 1`, a `difficulty` made of `R` and the decimal digits of `n`, and a
`costTolerance` other than the free-only literal, the agent returned by `routeTask` is the first
catalog entry with `minRank ≤ n`; it is the same for any other title, body and lowering, and for
`n = 7` it is tier 2, `Manager`. -/
theorem routeTask_manual_rank (toLowerCase toLowerCase' : String → String) (n : Nat)
    (title body title' body' : String) (costTolerance : Option String)
    (hn : 1 ≤ n) (hcost : costTolerance ≠ some "Free only (Tier 5-6)") :
    firstMatch n = some (routeTask toLowerCase title body
        { difficulty := some ("R" ++ toString n), costTolerance := costTolerance }).agent ∧
    (routeTask toLowerCase' title' body'
        { difficulty := some ("R" ++ toString n), costTolerance := costTolerance }).agent =
      (routeTask toLowerCase title body
        { difficulty := some ("R" ++ toString n), costTolerance := costTolerance }).agent ∧
    (n = 7 →
      (routeTask toLowerCase title body
        { difficulty := some ("R" ++ toString n), costTolerance := costTolerance }).agent.tier
        = 2 ∧
      (routeTask toLowerCase title body
        { difficulty := some ("R" ++ toString n), costTolerance := costTolerance }).agent.name
        = "Manager") := by
  have hagent : ∀ (lower : String → String) (t b : String),
      (routeTask lower t b
        { difficulty := some ("R" ++ toString n), costTolerance := costTolerance }).agent =
      selectedAgent n := by
    intro lower t b
    rw [routeTask_of_not_free lower t b _ hcost]
    simp only [targetRank_R_repr n hn]
  obtain ⟨a, ha⟩ := firstMatch_isSome n hn
  rw [hagent, hagent, selectedAgent_eq_of_firstMatch n a ha]
  refine ⟨ha, rfl, ?_⟩
  intro h7
  subst h7
  have : a = AGENT_TIERS.get ⟨1, by decide⟩ := Option.some.inj (ha.symm.trans rfl)
  rw [this]
  exact ⟨rfl, rfl⟩

/-- Witness of C2 at `R7`. -/
theorem routeTask_manual_rank_witness :
    (1 ≤ 7 ∧ (none : Option String) ≠ some "Free only (Tier 5-6)") ∧
    (routeTask asciiLower "Update README" "Add installation instructions"
        { difficulty := some ("R" ++ toString 7), costTolerance := none }).agent.name
      = "Manager" :=
  ⟨⟨by decide, by decide⟩,
    ((routeTask_manual_rank asciiLower asciiLower 7 "Update README"
      "Add installation instructions" "x" "" none (by decide) (by decide)).2.2 rfl).2⟩

/-- C3: the catalog lists six tiers in strictly descending `minRank` order 9, 7, 5, 4, 3, 1, and
for every rank `r` from 1 to 9 the first-match rule selects exactly one tier, the one
`routeTask` selects; its `minRank` is at most `r` and is the largest `minRank` of the catalog
that does not exceed `r`. -/
theorem AGENT_TIERS_first_match (r : Nat) (h1 : 1 ≤ r) (h9 : r ≤ 9) :
    AGENT_TIERS.map AgentTier.minRank = [9, 7, 5, 4, 3, 1] ∧
    (AGENT_TIERS.map AgentTier.minRank).Pairwise (fun x y => x > y) ∧
    ∃! a, AGENT_TIERS.find? (fun agent => decide (r ≥ agent.minRank)) = some a ∧
      selectedAgent r = a ∧ a.minRank ≤ r ∧
      ∀ b ∈ AGENT_TIERS, b.minRank ≤ r → b.minRank ≤ a.minRank := by
  refine ⟨rfl, by decide, ?_⟩
  interval_cases r <;>
    exact ⟨_, ⟨rfl, rfl, by decide, by decide⟩,
      fun b hb => (Option.some.inj (hb.1.symm.trans rfl)).symm ▸ rfl⟩

/-- Witness of C3 at rank 4, which selects the tier with `minRank = 4`. -/
theorem AGENT_TIERS_first_match_witness :
    (1 ≤ 4 ∧ 4 ≤ 9) ∧
    ∃! a, AGENT_TIERS.find? (fun agent => decide (4 ≥ agent.minRank)) = some a ∧
      selectedAgent 4 = a ∧ a.minRank ≤ 4 ∧
      ∀ b ∈ AGENT_TIERS, b.minRank ≤ 4 → b.minRank ≤ a.minRank :=
  ⟨⟨by decide, by decide⟩, (AGENT_TIERS_first_match 4 (by decide) (by decide)).2.2⟩

/-- C4: the rank computed by `analyzeComplexity` equals the ordered threshold table of the
specification applied to the entropy, the technical count and the uncertainty count; the table
takes one of the values 2, 3, 5, 7, 9 on every input; two analyses that agree on these three
signals get the same rank, whatever their `crossFileDeps`. -/
theorem analyzeComplexity_estimatedRank (toLowerCase toLowerCase' : String → String)
    (title body title' body' : String)
    (hentropy : (analyzeComplexity toLowerCase' title' body').entropy =
      (analyzeComplexity toLowerCase title body).entropy)
    (htechnical : (analyzeComplexity toLowerCase' title' body').technicalCount =
      (analyzeComplexity toLowerCase title body).technicalCount)
    (huncertainty : (analyzeComplexity toLowerCase' title' body').uncertaintyCount =
      (analyzeComplexity toLowerCase title body).uncertaintyCount) :
    (analyzeComplexity toLowerCase title body).estimatedRank =
      rankTable (analyzeComplexity toLowerCase title body).entropy
        (analyzeComplexity toLowerCase title body).technicalCount
        (analyzeComplexity toLowerCase title body).uncertaintyCount ∧
    (∀ (entropy : JSNum) (technicalCount uncertaintyCount : Nat),
      rankTable entropy technicalCount uncertaintyCount ∈ [2, 3, 5, 7, 9]) ∧
    (analyzeComplexity toLowerCase title body).estimatedRank ∈ [2, 3, 5, 7, 9] ∧
    (analyzeComplexity toLowerCase' title' body').estimatedRank =
      (analyzeComplexity toLowerCase title body).estimatedRank := by
  have htable : ∀ (entropy : JSNum) (technicalCount uncertaintyCount : Nat),
      rankTable entropy technicalCount uncertaintyCount ∈ [2, 3, 5, 7, 9] := by
    intro entropy technicalCount uncertaintyCount
    unfold rankTable
    split_ifs <;> simp
  have hcode : ∀ (lower : String → String) (t b : String),
      (analyzeComplexity lower t b).estimatedRank =
        rankTable (analyzeComplexity lower t b).entropy
          (analyzeComplexity lower t b).technicalCount
          (analyzeComplexity lower t b).uncertaintyCount := by
    intro lower t b
    rfl
  refine ⟨hcode _ _ _, htable, ?_, ?_⟩
  · rw [hcode]
    exact htable _ _ _
  · rw [hcode toLowerCase', hcode toLowerCase, hentropy, htechnical, huncertainty]

/-- Witness of C4: the titles `refactor` and `api` with empty body agree on entropy, technical
count and uncertainty count, differ in `crossFileDeps`, and get the same rank. -/
theorem analyzeComplexity_estimatedRank_witness :
    ((analyzeComplexity asciiLower "refactor" "").entropy =
        (analyzeComplexity asciiLower "api" "").entropy ∧
      (analyzeComplexity asciiLower "refactor" "").technicalCount =
        (analyzeComplexity asciiLower "api" "").technicalCount ∧
      (analyzeComplexity asciiLower "refactor" "").uncertaintyCount =
        (analyzeComplexity asciiLower "api" "").uncertaintyCount) ∧
    (analyzeComplexity asciiLower "refactor" "").crossFileDeps ≠
      (analyzeComplexity asciiLower "api" "").crossFileDeps ∧
    (analyzeComplexity asciiLower "refactor" "").estimatedRank =
      (analyzeComplexity asciiLower "api" "").estimatedRank :=
  have he : (analyzeComplexity asciiLower "refactor" "").entropy =
      (analyzeComplexity asciiLower "api" "").entropy :=
    (entropy_of_tokens_all_eq asciiLower (fullText asciiLower "refactor" "") "refactor"
      (by decide) (by decide)).trans
    (entropy_of_tokens_all_eq asciiLower (fullText asciiLower "api" "") "api"
      (by decide) (by decide)).symm
  ⟨⟨he, by decide, by decide⟩, by decide,
    (analyzeComplexity_estimatedRank asciiLower asciiLower "api" "" "refactor" ""
      he (by decide) (by decide)).2.2.2⟩

/-- C5 (evaluation at a failing input): on the text `constructor` the token sequence is the
single token `constructor`, whose occurrence count is 1 and whose entropy by the formula of the
specification is 0; the table built by the counting loop holds a string under that key, not the
count, and `calculateEntropy` returns `NaN`. On `a __proto__ a` the table has no entry for the
token `__proto__`. The token `tostring` is counted as intended. -/
theorem calculateEntropy_constructor :
    tokenize asciiLower "constructor" = ["constructor"] ∧
    (tokenize asciiLower "constructor").count "constructor" = 1 ∧
    shannonEntropy (tokenize asciiLower "constructor") = 0 ∧
    buildFreq (tokenize asciiLower "constructor") =
      [("constructor", JSVal.str "function Object() \x7b [native code] \x7d1")] ∧
    calculateEntropy asciiLower "constructor" = JSNum.nan ∧
    buildFreq (tokenize asciiLower "a __proto__ a") = [("a", JSVal.num 2)] ∧
    buildFreq (tokenize asciiLower "toString") = [("tostring", JSVal.num 1)] := by
  have ht : tokenize asciiLower "constructor" = ["constructor"] := by decide
  refine ⟨ht, by decide, ?_, by decide, ?_, by decide, by decide⟩
  · rw [ht]
    simp [shannonEntropy]
  · rw [calculateEntropy_eq, ht]
    have hf : buildFreq ["constructor"] =
        [("constructor", JSVal.str "function Object() \x7b [native code] \x7d1")] := by decide
    rw [hf]
    simp only [objectValues, List.map_cons, List.map_nil, List.foldl_cons, List.foldl_nil,
      List.length_cons, List.length_nil]
    rw [if_neg (by decide), entropyStep_str]

/-- C6 (evaluation at a failing input): the text `constructor constructor` has two tokens, all
identical, yet `calculateEntropy` returns `NaN`, which is neither `>= 0` nor equal to 0. -/
theorem calculateEntropy_identical_tokens_nan :
    tokenize asciiLower "constructor constructor" = ["constructor", "constructor"] ∧
    calculateEntropy asciiLower "constructor constructor" = JSNum.nan ∧
    ¬ (calculateEntropy asciiLower "constructor constructor").ge 0 ∧
    calculateEntropy asciiLower "constructor constructor" ≠ JSNum.num 0 := by
  have ht : tokenize asciiLower "constructor constructor" = ["constructor", "constructor"] := by
    decide
  have hnan : calculateEntropy asciiLower "constructor constructor" = JSNum.nan := by
    rw [calculateEntropy_eq, ht]
    have hf : buildFreq ["constructor", "constructor"] =
        [("constructor", JSVal.str "function Object() \x7b [native code] \x7d11")] := by decide
    rw [hf]
    simp only [objectValues, List.map_cons, List.map_nil, List.foldl_cons, List.foldl_nil,
      List.length_cons, List.length_nil]
    rw [if_neg (by decide), entropyStep_str]
  refine ⟨ht, hnan, ?_, ?_⟩
  · rw [hnan]
    exact fun h => h
  · rw [hnan]
    exact fun h => JSNum.noConfusion h

/-- C7 (evaluation at a failing input): the text `__proto__ a` has two distinct tokens with one
occurrence each; `calculateEntropy` returns 1/2, not `log2(2) = 1`. -/
theorem calculateEntropy_proto_half :
    tokenize asciiLower "__proto__ a" = ["__proto__", "a"] ∧
    calculateEntropy asciiLower "__proto__ a" = JSNum.num (1 / 2) ∧
    calculateEntropy asciiLower "__proto__ a" ≠ JSNum.num (Real.logb 2 2) := by
  have ht : tokenize asciiLower "__proto__ a" = ["__proto__", "a"] := by decide
  have h2 : Real.logb 2 ((1 : ℝ) / 2) = -1 := by
    rw [one_div, Real.logb_inv, Real.logb_self_eq_one (by norm_num)]
  have hval : calculateEntropy asciiLower "__proto__ a" = JSNum.num (1 / 2) := by
    rw [calculateEntropy_eq, ht]
    have hf : buildFreq ["__proto__", "a"] = [("a", JSVal.num 1)] := by decide
    rw [hf]
    simp only [objectValues, List.map_cons, List.map_nil, List.foldl_cons, List.foldl_nil,
      List.length_cons, List.length_nil]
    rw [if_neg (by decide), entropyStep_num _ _ _ (by decide) (by decide)]
    congr 1
    norm_num [h2]
  refine ⟨ht, hval, ?_⟩
  rw [hval, Real.logb_self_eq_one (by norm_num)]
  intro h
  injection h with h
  norm_num at h

/-- C8 (evaluation at a failing input): the text `constructor b` has two distinct tokens;
`calculateEntropy` returns `NaN`, which is not `<= log2(2)`. -/
theorem calculateEntropy_bound_nan :
    (tokenize asciiLower "constructor b").toFinset.card = 2 ∧
    calculateEntropy asciiLower "constructor b" = JSNum.nan ∧
    ¬ (calculateEntropy asciiLower "constructor b").le (Real.logb 2 2) := by
  have ht : tokenize asciiLower "constructor b" = ["constructor", "b"] := by decide
  have hnan : calculateEntropy asciiLower "constructor b" = JSNum.nan := by
    rw [calculateEntropy_eq, ht]
    have hf : buildFreq ["constructor", "b"] =
        [("constructor", JSVal.str "function Object() \x7b [native code] \x7d1"),
         ("b", JSVal.num 1)] := by decide
    rw [hf]
    simp only [objectValues, List.map_cons, List.map_nil, List.foldl_cons, List.foldl_nil,
      List.length_cons, List.length_nil]
    rw [if_neg (by decide), entropyStep_str, entropyStep_nan]
  refine ⟨by rw [ht]; decide, hnan, ?_⟩
  rw [hnan]
  exact fun h => h

/-- C9: a `difficulty` string that contains no `R` immediately followed by a decimal digit is
treated as absent: the target rank is `analysis.estimatedRank` and `routeTask` returns the same
result as without `difficulty`, for every title, body and `costTolerance`. -/
theorem routeTask_malformed_difficulty (toLowerCase : String → String) (title body : String)
    (costTolerance : Option String) (difficulty : String)
    (h : ∀ pre post c, difficulty.data = pre ++ 'R' :: c :: post → c.isDigit = false) :
    targetRank { difficulty := some difficulty, costTolerance := costTolerance }
        (analyzeComplexity toLowerCase title body) =
      (analyzeComplexity toLowerCase title body).estimatedRank ∧
    routeTask toLowerCase title body
        { difficulty := some difficulty, costTolerance := costTolerance } =
      routeTask toLowerCase title body { difficulty := none, costTolerance := costTolerance } := by
  have hnone := matchRDigits_eq_none difficulty.data h
  refine ⟨targetRank_of_no_match difficulty costTolerance _ hnone, ?_⟩
  unfold routeTask
  simp only [targetRank_of_no_match difficulty costTolerance _ hnone, targetRank_of_absent]

/-- Witness of C9 at the difficulty string `hard`. -/
theorem routeTask_malformed_difficulty_witness :
    (∀ pre post c, "hard".data = pre ++ 'R' :: c :: post → c.isDigit = false) ∧
    routeTask asciiLower "Fix typo" "in README" { difficulty := some "hard", costTolerance := none }
      = routeTask asciiLower "Fix typo" "in README" { difficulty := none, costTolerance := none } :=
  have hyp : ∀ pre post c, "hard".data = pre ++ 'R' :: c :: post → c.isDigit = false := by
    intro pre post c hc
    have hmem : 'R' ∈ "hard".data := by
      rw [hc]
      simp
    exact absurd hmem (by decide)
  ⟨hyp, (routeTask_malformed_difficulty asciiLower "Fix typo" "in README" none "hard" hyp).2⟩

/-- C10 (counterexample): with title `a b` and empty body the analysed text has the two tokens
`a` and `b`, and the entropy is 1, not 0. -/
theorem analyzeComplexity_empty_body_counterexample :
    (analyzeComplexity asciiLower "a b" "").entropy = JSNum.num 1 ∧
    (analyzeComplexity asciiLower "a b" "").entropy ≠ JSNum.num 0 := by
  have hval : (analyzeComplexity asciiLower "a b" "").entropy = JSNum.num 1 := by
    show calculateEntropy asciiLower (fullText asciiLower "a b" "") = JSNum.num 1
    rw [calculateEntropy_eq]
    have ht : tokenize asciiLower (fullText asciiLower "a b" "") = ["a", "b"] := by decide
    have hf : buildFreq ["a", "b"] = [("a", JSVal.num 1), ("b", JSVal.num 1)] := by decide
    rw [ht, hf]
    simp only [objectValues, List.map_cons, List.map_nil, List.foldl_cons, List.foldl_nil,
      List.length_cons, List.length_nil]
    rw [if_neg (by decide), entropyStep_num _ _ _ (by decide) (by decide),
      entropyStep_num _ _ _ (by decide) (by decide)]
    congr 1
    have h2 : Real.logb 2 ((1 : ℝ) / 2) = -1 := by
      rw [one_div, Real.logb_inv, Real.logb_self_eq_one (by norm_num)]
    norm_num [h2]
  refine ⟨hval, ?_⟩
  rw [hval]
  intro h
  injection h with h
  norm_num at h

/-- C10 (amended): with an empty body the entropy is that of the tokens of the lowered text
`title + ' '`; it is 0 whenever all these tokens are one and the same token that is not the
name of a function-valued property of `Object.prototype` (in particular for a title without
tokens or with a single such token). -/
theorem analyzeComplexity_empty_body (toLowerCase : String → String) (title t : String)
    (ht : objectPrototypeFunctions.lookup t = none)
    (hall : ∀ x ∈ tokenize toLowerCase (fullText toLowerCase title ""), x = t) :
    (analyzeComplexity toLowerCase title "").entropy =
      calculateEntropy toLowerCase (toLowerCase (title ++ " " ++ "")) ∧
    (analyzeComplexity toLowerCase title "").entropy = JSNum.num 0 :=
  ⟨rfl, entropy_of_tokens_all_eq toLowerCase (fullText toLowerCase title "") t ht hall⟩

/-- Witness of C10 (amended) at the title `x`. -/
theorem analyzeComplexity_empty_body_witness :
    (objectPrototypeFunctions.lookup "x" = none ∧
      ∀ y ∈ tokenize asciiLower (fullText asciiLower "x" ""), y = "x") ∧
    (analyzeComplexity asciiLower "x" "").entropy = JSNum.num 0 :=
  ⟨⟨by decide, by decide⟩,
    (analyzeComplexity_empty_body asciiLower "x" "x" (by decide) (by decide)).2⟩

/-- C11 (counterexample): `routeTask('x')`, the call with the body omitted and no options, throws
a `TypeError`; it does not return the result of `routeTask('x', '', {})`. -/
theorem routeTaskOmittedBody_counterexample :
    routeTaskOmittedBody asciiLower "x" {} =
      Except.error
        (JSError.typeError "Cannot read properties of undefined (reading length)") ∧
    routeTaskOmittedBody asciiLower "x" {} ≠ Except.ok (routeTask asciiLower "x" "" {}) := by
  have h : routeTaskOmittedBody asciiLower "x" {} =
      Except.error
        (JSError.typeError "Cannot read properties of undefined (reading length)") := by
    unfold routeTaskOmittedBody
    simp only [if_neg (show (({} : RoutingOptions).costTolerance ≠ some freeOnly) by decide)]
  refine ⟨h, ?_⟩
  rw [h]
  exact fun hne => Except.noConfusion hne

/-- C11 (amended): the core requires the body; its callers pass `body || ''`, which is the empty
string for a missing body. Called with the body omitted, `routeTask` analyses the text
`title + ' undefined'`; with the free-only `costTolerance` it returns the result of
`routeTask(title, 'undefined', options)`, otherwise it throws a `TypeError`. -/
theorem routeTaskOmittedBody_eq (toLowerCase : String → String) (title : String)
    (options : RoutingOptions) :
    routeTaskOmittedBody toLowerCase title options =
      (if options.costTolerance = some "Free only (Tier 5-6)" then
        Except.ok (routeTask toLowerCase title "undefined" options)
      else
        Except.error
          (JSError.typeError "Cannot read properties of undefined (reading length)")) ∧
    routeTask toLowerCase title (bodyOrEmpty none) options =
      routeTask toLowerCase title "" options := by
  refine ⟨?_, rfl⟩
  have hlit : (some "Free only (Tier 5-6)" : Option String) = some freeOnly := rfl
  rw [hlit]
  by_cases h : options.costTolerance = some freeOnly
  · rw [if_pos h, routeTask_of_free _ _ _ _ h]
    unfold routeTaskOmittedBody
    simp only [h, if_true, freeAgent_lookup]
  · rw [if_neg h]
    unfold routeTaskOmittedBody
    simp only [if_neg h]

/-- C12: on the rank-based path, with selected tier `T` of the catalog, the cost estimate is
`((length(title) + length(body)) * 1.5 / 1000000) * T.costPer1MTokens`, each operation being
that of binary64 as in the source, and the time estimate is `10 * m`, `m` the entry at index
`T.tier - 1` of the multiplier table (never the fallback), a product that binary64 computes
exactly; the cost is non-negative and 0 for tiers 5 and 6, and the time is one of 10, 15, 20,
30, 40, 50. -/
theorem routeTask_cost_time (toLowerCase : String → String) (title body : String)
    (options : RoutingOptions) (hcost : options.costTolerance ≠ some "Free only (Tier 5-6)") :
    ∃ T ∈ AGENT_TIERS, (routeTask toLowerCase title body options).agent = T ∧
      (routeTask toLowerCase title body options).costEstimate =
        (Binary64.mul
          (Binary64.div
            (Binary64.mul
              (Binary64.add (Binary64.ofNat (jsLength title)) (Binary64.ofNat (jsLength body)))
              (Binary64.ofDecimal (3 / 2)))
            (Binary64.ofDecimal 1000000))
          (Binary64.ofDecimal T.costPer1MTokens)).toRat ∧
      (∃ m, 1 ≤ T.tier ∧ tierMultipliers.get? (T.tier - 1) = some m ∧ m ≠ 0 ∧
        (routeTask toLowerCase title body options).timeEstimate = 10 * m ∧
        (Binary64.mul (Binary64.ofDecimal 10) (Binary64.ofDecimal m)).toRat = 10 * m) ∧
      0 ≤ (routeTask toLowerCase title body options).costEstimate ∧
      (T.tier = 5 ∨ T.tier = 6 → (routeTask toLowerCase title body options).costEstimate = 0) ∧
      (routeTask toLowerCase title body options).timeEstimate ∈
        ([10, 15, 20, 30, 40, 50] : List ℚ) := by
  rw [routeTask_of_not_free toLowerCase title body options hcost]
  simp only []
  have hmem := selectedAgent_mem (targetRank options (analyzeComplexity toLowerCase title body))
  generalize selectedAgent (targetRank options (analyzeComplexity toLowerCase title body)) = T
    at hmem ⊢
  have hzero : ∀ x : Binary64, (Binary64.mul x (Binary64.ofDecimal 0)).toRat = 0 := by
    intro x
    rw [Binary64.ofDecimal_zero, Binary64.mul_zero, Binary64.toRat_zero]
  refine ⟨T, hmem, rfl, rfl, ?_, Binary64.toRat_nonneg _, ?_, ?_⟩
  · simp only [AGENT_TIERS, List.mem_cons, List.mem_singleton, List.not_mem_nil, or_false]
      at hmem
    rcases hmem with rfl | rfl | rfl | rfl | rfl | rfl
    · exact ⟨1, by decide, rfl, by norm_num, by norm_num [tierMultiplier, tierMultipliers],
        Binary64.time_exact _ (by simp [tierMultipliers])⟩
    · exact ⟨3 / 2, by decide, rfl, by norm_num, by norm_num [tierMultiplier, tierMultipliers],
        Binary64.time_exact _ (by simp [tierMultipliers])⟩
    · exact ⟨2, by decide, rfl, by norm_num, by norm_num [tierMultiplier, tierMultipliers],
        Binary64.time_exact _ (by simp [tierMultipliers])⟩
    · exact ⟨3, by decide, rfl, by norm_num, by norm_num [tierMultiplier, tierMultipliers],
        Binary64.time_exact _ (by simp [tierMultipliers])⟩
    · exact ⟨4, by decide, rfl, by norm_num, by norm_num [tierMultiplier, tierMultipliers],
        Binary64.time_exact _ (by simp [tierMultipliers])⟩
    · exact ⟨5, by decide, rfl, by norm_num, by norm_num [tierMultiplier, tierMultipliers],
        Binary64.time_exact _ (by simp [tierMultipliers])⟩
  · intro h56
    simp only [AGENT_TIERS, List.mem_cons, List.mem_singleton, List.not_mem_nil, or_false]
      at hmem
    rcases hmem with rfl | rfl | rfl | rfl | rfl | rfl
    · exact absurd h56 (by decide)
    · exact absurd h56 (by decide)
    · exact absurd h56 (by decide)
    · exact absurd h56 (by decide)
    · exact hzero _
    · exact hzero _
  · simp only [AGENT_TIERS, List.mem_cons, List.mem_singleton, List.not_mem_nil, or_false]
      at hmem
    rcases hmem with rfl | rfl | rfl | rfl | rfl | rfl <;>
      norm_num [tierMultiplier, tierMultipliers]

/-- Witness of C12 at `routeTask('x', '', {difficulty: 'R4'})`: the time estimate is in the
list, and the cost estimate is the double `7.500000000000001e-8`; at
`routeTask('abc', 'defg', {difficulty: 'R9'})` the cost estimate is the double
`0.00015749999999999998`. -/
theorem routeTask_cost_time_witness :
    ({ difficulty := some "R4" } : RoutingOptions).costTolerance ≠
      some "Free only (Tier 5-6)" ∧
    (routeTask asciiLower "x" "" { difficulty := some "R4" }).timeEstimate ∈
      ([10, 15, 20, 30, 40, 50] : List ℚ) ∧
    (routeTask asciiLower "x" "" { difficulty := some "R4" }).costEstimate =
      5666839779443575 / 2 ^ 76 ∧
    (routeTask asciiLower "abc" "defg" { difficulty := some "R9" }).costEstimate =
      5810724383218508 / 2 ^ 65 :=
  ⟨by decide,
    (routeTask_cost_time asciiLower "x" "" { difficulty := some "R4" }
      (by decide)).choose_spec.2.2.2.2.2.2,
    costEstimate_R4, costEstimate_R9⟩

/-- C13: when the analysed text contains at least 6 of the technical terms, and the options have
no difficulty and no free-only cost tolerance, `routeTask` yields `technicalCount ≥ 6`,
`estimatedRank = 9` whatever the entropy is, the agent of tier 1 (`Executive`) and the time
estimate 10. -/
theorem routeTask_technical_overload (toLowerCase : String → String) (title body : String)
    (costTolerance : Option String)
    (hcost : costTolerance ≠ some "Free only (Tier 5-6)")
    (hterms : 6 ≤ (technicalTerms.filter
      (fun term => includes (toLowerCase (title ++ " " ++ body)) term)).length) :
    (routeTask toLowerCase title body
        { difficulty := none, costTolerance := costTolerance }).analysis.technicalCount ≥ 6 ∧
    (routeTask toLowerCase title body
        { difficulty := none, costTolerance := costTolerance }).analysis.estimatedRank = 9 ∧
    (routeTask toLowerCase title body
        { difficulty := none, costTolerance := costTolerance }).agent =
      AGENT_TIERS.get ⟨0, by decide⟩ ∧
    (routeTask toLowerCase title body
        { difficulty := none, costTolerance := costTolerance }).agent.tier = 1 ∧
    (routeTask toLowerCase title body
        { difficulty := none, costTolerance := costTolerance }).agent.name = "Executive" ∧
    (routeTask toLowerCase title body
        { difficulty := none, costTolerance := costTolerance }).timeEstimate = 10 := by
  have htc : 6 ≤ (analyzeComplexity toLowerCase title body).technicalCount := hterms
  have hrank : (analyzeComplexity toLowerCase title body).estimatedRank = 9 := by
    rw [estimatedRank_eq_rankTable]
    exact rankTable_of_technical _ _ _ htc
  rw [routeTask_of_not_free toLowerCase title body _ hcost]
  simp only [targetRank_of_absent, hrank]
  refine ⟨htc, trivial, rfl, rfl, rfl, ?_⟩
  have hsel : selectedAgent 9 = AGENT_TIERS.get ⟨0, by decide⟩ := rfl
  rw [hsel]
  norm_num [AGENT_TIERS, tierMultiplier, tierMultipliers]

/-- Witness of C13 at the body `oauth pkce jwt webhook api authentication`. -/
theorem routeTask_technical_overload_witness :
    ((none : Option String) ≠ some "Free only (Tier 5-6)" ∧
      6 ≤ (technicalTerms.filter (fun term => includes
        (asciiLower ("x" ++ " " ++ "oauth pkce jwt webhook api authentication")) term)).length) ∧
    (routeTask asciiLower "x" "oauth pkce jwt webhook api authentication"
        { difficulty := none, costTolerance := none }).agent.name = "Executive" ∧
    (routeTask asciiLower "x" "oauth pkce jwt webhook api authentication"
        { difficulty := none, costTolerance := none }).timeEstimate = 10 :=
  ⟨⟨by decide, by decide⟩,
    (routeTask_technical_overload asciiLower "x" "oauth pkce jwt webhook api authentication"
      none (by decide) (by decide)).2.2.2.2.1,
    (routeTask_technical_overload asciiLower "x" "oauth pkce jwt webhook api authentication"
      none (by decide) (by decide)).2.2.2.2.2⟩

/-- C14: when the analysis has entropy at most 2.0, technical count at most 1 and uncertainty
count at most 3, `routeTask` with empty options yields `estimatedRank = 2`, the agent of tier 6
(`Script`), cost estimate 0 and time estimate 50. -/
theorem routeTask_trivial (toLowerCase : String → String) (title body : String)
    (hentropy : (analyzeComplexity toLowerCase title body).entropy.le 2)
    (htechnical : (analyzeComplexity toLowerCase title body).technicalCount ≤ 1)
    (huncertainty : (analyzeComplexity toLowerCase title body).uncertaintyCount ≤ 3) :
    (routeTask toLowerCase title body {}).analysis.estimatedRank = 2 ∧
    (routeTask toLowerCase title body {}).agent = AGENT_TIERS.get ⟨5, by decide⟩ ∧
    (routeTask toLowerCase title body {}).agent.tier = 6 ∧
    (routeTask toLowerCase title body {}).agent.name = "Script" ∧
    (routeTask toLowerCase title body {}).costEstimate = 0 ∧
    (routeTask toLowerCase title body {}).timeEstimate = 50 := by
  have hrank : (analyzeComplexity toLowerCase title body).estimatedRank = 2 := by
    rw [estimatedRank_eq_rankTable]
    exact rankTable_of_low _ _ _ hentropy htechnical huncertainty
  rw [routeTask_of_not_free toLowerCase title body {} (by decide)]
  simp only [targetRank_of_absent, hrank]
  have hsel : selectedAgent 2 = AGENT_TIERS.get ⟨5, by decide⟩ := rfl
  rw [hsel]
  refine ⟨trivial, rfl, rfl, rfl, ?_, ?_⟩
  · show (Binary64.mul _ (Binary64.ofDecimal 0)).toRat = 0
    rw [Binary64.ofDecimal_zero, Binary64.mul_zero, Binary64.toRat_zero]
  · norm_num [AGENT_TIERS, tierMultiplier, tierMultipliers]

/-- Witness of C14 at title `x` and empty body: entropy 0, technical count 0, uncertainty
count 0, hence rank 2, tier 6 (`Script`), cost 0 and time 50. -/
theorem routeTask_trivial_witness :
    ((analyzeComplexity asciiLower "x" "").entropy = JSNum.num 0 ∧
      (analyzeComplexity asciiLower "x" "").technicalCount = 0 ∧
      (analyzeComplexity asciiLower "x" "").uncertaintyCount = 0) ∧
    (routeTask asciiLower "x" "" {}).analysis.estimatedRank = 2 ∧
    (routeTask asciiLower "x" "" {}).agent = AGENT_TIERS.get ⟨5, by decide⟩ ∧
    (routeTask asciiLower "x" "" {}).agent.tier = 6 ∧
    (routeTask asciiLower "x" "" {}).agent.name = "Script" ∧
    (routeTask asciiLower "x" "" {}).costEstimate = 0 ∧
    (routeTask asciiLower "x" "" {}).timeEstimate = 50 :=
  have h0 : (analyzeComplexity asciiLower "x" "").entropy = JSNum.num 0 :=
    entropy_of_tokens_all_eq asciiLower (fullText asciiLower "x" "") "x" (by decide) (by decide)
  have hle : (analyzeComplexity asciiLower "x" "").entropy.le 2 := by
    rw [h0]
    show (0 : ℝ) ≤ 2
    norm_num
  ⟨⟨h0, by decide, by decide⟩, routeTask_trivial asciiLower "x" "" hle (by decide) (by decide)⟩

/-- C15: on the rank-based path the reasoning is the sentences of the specification joined by
`. `: the band sentence of `analysis.estimatedRank`, then the technical clause exactly when
`technicalCount > 3`, then the uncertainty clause exactly when `uncertaintyCount > 0`, each with
the count of the analysis. For rank 9 the reasoning starts with the critical/novel sentence and
contains the technical clause whenever `technicalCount > 3`. -/
theorem routeTask_reasoning (toLowerCase : String → String) (title body : String)
    (options : RoutingOptions) (hcost : options.costTolerance ≠ some "Free only (Tier 5-6)") :
    (routeTask toLowerCase title body options).reasoning =
      ". ".intercalate (reasoningSentences
        (routeTask toLowerCase title body options).analysis.estimatedRank
        (routeTask toLowerCase title body options).analysis.technicalCount
        (routeTask toLowerCase title body options).analysis.uncertaintyCount) ∧
    (∀ n, technicalClause n ∈ reasoningSentences
        (routeTask toLowerCase title body options).analysis.estimatedRank
        (routeTask toLowerCase title body options).analysis.technicalCount
        (routeTask toLowerCase title body options).analysis.uncertaintyCount ↔
      (routeTask toLowerCase title body options).analysis.technicalCount = n ∧ n > 3) ∧
    (∀ m, uncertaintyClause m ∈ reasoningSentences
        (routeTask toLowerCase title body options).analysis.estimatedRank
        (routeTask toLowerCase title body options).analysis.technicalCount
        (routeTask toLowerCase title body options).analysis.uncertaintyCount ↔
      (routeTask toLowerCase title body options).analysis.uncertaintyCount = m ∧ m > 0) ∧
    ((routeTask toLowerCase title body options).analysis.estimatedRank = 9 →
      startsWith (routeTask toLowerCase title body options).reasoning.data
        "Critical/novel task requiring top-tier reasoning".data = true ∧
      ((routeTask toLowerCase title body options).analysis.technicalCount > 3 →
        includes (routeTask toLowerCase title body options).reasoning
          (technicalClause
            (routeTask toLowerCase title body options).analysis.technicalCount) = true)) := by
  rw [routeTask_analysis, routeTask_reasoning_of_not_free _ _ _ _ hcost]
  refine ⟨rfl, fun n => technicalClause_mem _ _ _ _, fun m => uncertaintyClause_mem _ _ _ _, ?_⟩
  intro h9
  rw [h9]
  constructor
  · obtain ⟨tail, ht⟩ := intercalate_cons_data ". " (bandSentence 9)
      ((if (analyzeComplexity toLowerCase title body).technicalCount > 3 then
          [technicalClause (analyzeComplexity toLowerCase title body).technicalCount] else []) ++
        (if (analyzeComplexity toLowerCase title body).uncertaintyCount > 0 then
          [uncertaintyClause (analyzeComplexity toLowerCase title body).uncertaintyCount]
          else []))
    have hlist : reasoningSentences 9
        (analyzeComplexity toLowerCase title body).technicalCount
        (analyzeComplexity toLowerCase title body).uncertaintyCount = bandSentence 9 ::
        ((if (analyzeComplexity toLowerCase title body).technicalCount > 3 then
          [technicalClause (analyzeComplexity toLowerCase title body).technicalCount] else []) ++
        (if (analyzeComplexity toLowerCase title body).uncertaintyCount > 0 then
          [uncertaintyClause (analyzeComplexity toLowerCase title body).uncertaintyCount]
          else [])) := by
      simp [reasoningSentences]
    rw [hlist, ht]
    exact startsWith_append _ _
  · intro htc
    obtain ⟨tail, ht⟩ := intercalate_cons_cons_data ". " (bandSentence 9)
      (technicalClause (analyzeComplexity toLowerCase title body).technicalCount)
      (if (analyzeComplexity toLowerCase title body).uncertaintyCount > 0 then
          [uncertaintyClause (analyzeComplexity toLowerCase title body).uncertaintyCount]
          else [])
    have hlist : reasoningSentences 9
        (analyzeComplexity toLowerCase title body).technicalCount
        (analyzeComplexity toLowerCase title body).uncertaintyCount = bandSentence 9 ::
        technicalClause (analyzeComplexity toLowerCase title body).technicalCount ::
        (if (analyzeComplexity toLowerCase title body).uncertaintyCount > 0 then
          [uncertaintyClause (analyzeComplexity toLowerCase title body).uncertaintyCount]
          else []) := by
      simp [reasoningSentences, htc]
    unfold includes
    rw [hlist, ht, List.append_assoc]
    exact includesChars_of_startsWith _ _ _ (startsWith_append _ _)

/-- Witness of C15 at a body with six technical terms: rank 9, and the reasoning starts with the
critical/novel sentence. -/
theorem routeTask_reasoning_witness :
    ({} : RoutingOptions).costTolerance ≠ some "Free only (Tier 5-6)" ∧
    (routeTask asciiLower "x" "oauth pkce jwt webhook api authentication"
        {}).analysis.estimatedRank = 9 ∧
    startsWith (routeTask asciiLower "x" "oauth pkce jwt webhook api authentication"
        {}).reasoning.data "Critical/novel task requiring top-tier reasoning".data = true :=
  have hrank : (routeTask asciiLower "x" "oauth pkce jwt webhook api authentication"
      {}).analysis.estimatedRank = 9 := by
    rw [routeTask_analysis, estimatedRank_eq_rankTable]
    exact rankTable_of_technical _ _ _ (by decide)
  ⟨by decide, hrank,
    ((routeTask_reasoning asciiLower "x" "oauth pkce jwt webhook api authentication" {}
      (by decide)).2.2.2 hrank).1⟩

/-- C16: on both paths the agent identifier is a function of the returned agent alone:
`a-` + prefix + `-worker_v1.0-` + the part of the model name before its first hyphen +
`_20251105-r` + the decimal rank. A returned agent of tier 2 gives
`a-m-worker_v1.0-claude_20251105-r8` and one of tier 5 gives
`a-f-worker_v1.0-qwen_20251105-r4`. -/
theorem routeTask_agentId (toLowerCase : String → String) (title body : String)
    (options : RoutingOptions) :
    (routeTask toLowerCase title body options).agentId =
      agentIdFormat (routeTask toLowerCase title body options).agent ∧
    ((routeTask toLowerCase title body options).agent.tier = 2 →
      (routeTask toLowerCase title body options).agentId =
        "a-m-worker_v1.0-claude_20251105-r8") ∧
    ((routeTask toLowerCase title body options).agent.tier = 5 →
      (routeTask toLowerCase title body options).agentId =
        "a-f-worker_v1.0-qwen_20251105-r4") := by
  have hid := routeTask_agentId_eq toLowerCase title body options
  have hmem := routeTask_agent_mem toLowerCase title body options
  rw [hid, agentIdOf_eq_agentIdFormat]
  generalize (routeTask toLowerCase title body options).agent = T at hmem ⊢
  refine ⟨rfl, ?_, ?_⟩
  · intro h2
    simp only [AGENT_TIERS, List.mem_cons, List.mem_singleton, List.not_mem_nil, or_false]
      at hmem
    rcases hmem with rfl | rfl | rfl | rfl | rfl | rfl
    · exact absurd h2 (by decide)
    · decide
    · exact absurd h2 (by decide)
    · exact absurd h2 (by decide)
    · exact absurd h2 (by decide)
    · exact absurd h2 (by decide)
  · intro h5
    simp only [AGENT_TIERS, List.mem_cons, List.mem_singleton, List.not_mem_nil, or_false]
      at hmem
    rcases hmem with rfl | rfl | rfl | rfl | rfl | rfl
    · exact absurd h5 (by decide)
    · exact absurd h5 (by decide)
    · exact absurd h5 (by decide)
    · exact absurd h5 (by decide)
    · decide
    · exact absurd h5 (by decide)

/-- Witness of C16 on the free-only path, which returns tier 5. -/
theorem routeTask_agentId_witness :
    (routeTask asciiLower "Fix typo in README" "There is a typo in line 42 of README.md"
        { costTolerance := some "Free only (Tier 5-6)" }).agent.tier = 5 ∧
    (routeTask asciiLower "Fix typo in README" "There is a typo in line 42 of README.md"
        { costTolerance := some "Free only (Tier 5-6)" }).agentId =
      "a-f-worker_v1.0-qwen_20251105-r4" :=
  have h5 : (routeTask asciiLower "Fix typo in README" "There is a typo in line 42 of README.md"
      { costTolerance := some "Free only (Tier 5-6)" }).agent.tier = 5 := by
    rw [routeTask_of_free _ _ _ _ rfl]
    rfl
  ⟨h5, (routeTask_agentId asciiLower "Fix typo in README"
    "There is a typo in line 42 of README.md"
    { costTolerance := some "Free only (Tier 5-6)" }).2.2 h5⟩

/-- C17 (counterexample): with difficulty `R0` and a body holding six technical terms the
estimated rank is 9 and the agent is tier 1, not tier 6. -/
theorem routeTask_R0_counterexample :
    (routeTask asciiLower "x" "oauth pkce jwt webhook api authentication"
        { difficulty := some "R0" }).agent.tier = 1 ∧
    (routeTask asciiLower "x" "oauth pkce jwt webhook api authentication"
        { difficulty := some "R0" }).agent.tier ≠ 6 := by
  have hrank : (analyzeComplexity asciiLower "x"
      "oauth pkce jwt webhook api authentication").estimatedRank = 9 := by
    rw [estimatedRank_eq_rankTable]
    exact rankTable_of_technical _ _ _ (by decide)
  have h1 : (routeTask asciiLower "x" "oauth pkce jwt webhook api authentication"
      { difficulty := some "R0" }).agent.tier = 1 := by
    rw [routeTask_of_not_free _ _ _ _ (by decide)]
    simp only [targetRank_R0, hrank]
    rfl
  exact ⟨h1, by rw [h1]; decide⟩

/-- C17 (amended): the difficulty `R0` parses to 0, which counts as no manual rank: the target
rank is `analysis.estimatedRank` and `routeTask` returns the same result as without difficulty.
With a `costTolerance` other than the free-only literal the agent is tier 6 (`Script`) exactly
when the estimated rank is 2. -/
theorem routeTask_R0 (toLowerCase : String → String) (title body : String)
    (costTolerance : Option String)
    (hcost : costTolerance ≠ some "Free only (Tier 5-6)") :
    targetRank { difficulty := some "R0", costTolerance := costTolerance }
        (analyzeComplexity toLowerCase title body) =
      (analyzeComplexity toLowerCase title body).estimatedRank ∧
    routeTask toLowerCase title body { difficulty := some "R0", costTolerance := costTolerance } =
      routeTask toLowerCase title body { difficulty := none, costTolerance := costTolerance } ∧
    ((routeTask toLowerCase title body
        { difficulty := some "R0", costTolerance := costTolerance }).agent.tier = 6 ↔
      (analyzeComplexity toLowerCase title body).estimatedRank = 2) := by
  refine ⟨targetRank_R0 _ _, ?_, ?_⟩
  · unfold routeTask
    simp only [targetRank_R0, targetRank_of_absent]
  · rw [routeTask_of_not_free _ _ _ _ hcost]
    simp only [targetRank_R0]
    rw [selectedAgent_tier]
    have hmem := rankTable_mem (analyzeComplexity toLowerCase title body).entropy
      (analyzeComplexity toLowerCase title body).technicalCount
      (analyzeComplexity toLowerCase title body).uncertaintyCount
    rw [← estimatedRank_eq_rankTable] at hmem
    generalize (analyzeComplexity toLowerCase title body).estimatedRank = r at hmem ⊢
    simp only [List.mem_cons, List.mem_singleton, List.not_mem_nil, or_false] at hmem
    rcases hmem with rfl | rfl | rfl | rfl | rfl <;> decide

/-- Witness of C17 (amended) at title `x` and empty body, of estimated rank 2: the agent is
tier 6. -/
theorem routeTask_R0_witness :
    (none : Option String) ≠ some "Free only (Tier 5-6)" ∧
    (routeTask asciiLower "x" "" { difficulty := some "R0", costTolerance := none }).agent.tier
      = 6 :=
  have h0 : (analyzeComplexity asciiLower "x" "").entropy = JSNum.num 0 :=
    entropy_of_tokens_all_eq asciiLower (fullText asciiLower "x" "") "x" (by decide) (by decide)
  have hle : (analyzeComplexity asciiLower "x" "").entropy.le 2 := by
    rw [h0]
    show (0 : ℝ) ≤ 2
    norm_num
  have hrank : (analyzeComplexity asciiLower "x" "").estimatedRank = 2 := by
    rw [estimatedRank_eq_rankTable]
    exact rankTable_of_low _ _ _ hle (by decide) (by decide)
  ⟨by decide, (routeTask_R0 asciiLower "x" "" none (by decide)).2.2.mpr hrank⟩

/-- C18: without a difficulty `routeTask` never selects tier 4 (`Intern`): the free-only override
selects tier 5 and the estimated ranks 9, 7, 5, 3, 2 select the tiers 1, 2, 3, 5, 6. For any
options, an agent of tier 4 is returned only when the manual rank parsed from the difficulty
is exactly 4, and the difficulty `R4` does return tier 4. -/
theorem routeTask_never_intern (toLowerCase : String → String) (title body : String)
    (options : RoutingOptions) (hdifficulty : options.difficulty = none) :
    (routeTask toLowerCase title body options).agent.tier ≠ 4 ∧
    (options.costTolerance = some "Free only (Tier 5-6)" →
      (routeTask toLowerCase title body options).agent.tier = 5) ∧
    (options.costTolerance ≠ some "Free only (Tier 5-6)" →
      ((routeTask toLowerCase title body options).analysis.estimatedRank,
        (routeTask toLowerCase title body options).agent.tier) ∈
        [(9, 1), (7, 2), (5, 3), (3, 5), (2, 6)]) ∧
    (∀ options' : RoutingOptions,
      (routeTask toLowerCase title body options').agent.tier = 4 →
        manualRank options' = some 4) ∧
    (routeTask toLowerCase title body { difficulty := some "R4" }).agent.tier = 4 := by
  have hfree : ∀ o : RoutingOptions, o.costTolerance = some freeOnly →
      (routeTask toLowerCase title body o).agent.tier = 5 := by
    intro o ho
    rw [routeTask_of_free _ _ _ _ ho]
    rfl
  have hpair : options.costTolerance ≠ some freeOnly →
      ((routeTask toLowerCase title body options).analysis.estimatedRank,
        (routeTask toLowerCase title body options).agent.tier) ∈
        [(9, 1), (7, 2), (5, 3), (3, 5), (2, 6)] := by
    intro hcost
    rw [routeTask_of_not_free _ _ _ _ hcost]
    simp only []
    have ht : targetRank options (analyzeComplexity toLowerCase title body) =
        (analyzeComplexity toLowerCase title body).estimatedRank := by
      unfold targetRank
      rw [manualRank_of_absent options hdifficulty]
    rw [ht, selectedAgent_tier]
    have hmem := rankTable_mem (analyzeComplexity toLowerCase title body).entropy
      (analyzeComplexity toLowerCase title body).technicalCount
      (analyzeComplexity toLowerCase title body).uncertaintyCount
    rw [← estimatedRank_eq_rankTable] at hmem
    generalize (analyzeComplexity toLowerCase title body).estimatedRank = r at hmem ⊢
    simp only [List.mem_cons, List.mem_singleton, List.not_mem_nil, or_false] at hmem
    rcases hmem with rfl | rfl | rfl | rfl | rfl <;> decide
  refine ⟨?_, hfree options, hpair, ?_, ?_⟩
  · by_cases hcost : options.costTolerance = some freeOnly
    · rw [hfree options hcost]
      decide
    · have hp := hpair hcost
      generalize (routeTask toLowerCase title body options).analysis.estimatedRank = r at hp
      generalize (routeTask toLowerCase title body options).agent.tier = t at hp ⊢
      simp only [List.mem_cons, List.mem_singleton, List.not_mem_nil, or_false,
        Prod.mk.injEq] at hp
      omega
  · intro o h4
    by_cases hcost : o.costTolerance = some freeOnly
    · rw [hfree o hcost] at h4
      exact absurd h4 (by decide)
    · rw [routeTask_of_not_free _ _ _ _ hcost] at h4
      exact targetRank_eq_four o toLowerCase title body (selectedAgent_tier_eq_four _ h4)
  · rw [routeTask_of_not_free _ _ _ _ (by decide)]
    have hm : manualRank { difficulty := some "R4" } = some 4 := by decide
    have ht : targetRank { difficulty := some "R4" }
        (analyzeComplexity toLowerCase title body) = 4 := by
      unfold targetRank
      rw [hm]
      rfl
    simp only [ht]
    rfl

/-- Witness of C18 at the first call of the test script, made without options. -/
theorem routeTask_never_intern_witness :
    ({} : RoutingOptions).difficulty = none ∧
    (routeTask asciiLower "Update README" "Add installation instructions to the README file"
        {}).agent.tier ≠ 4 :=
  ⟨rfl, (routeTask_never_intern asciiLower "Update README"
    "Add installation instructions to the README file" {} rfl).1⟩

/-- C19: a manual difficulty changes neither the analysis nor the reasoning: for every
difficulty string they equal those of the call with empty options. The reasoning is keyed to
the estimated rank: title `x` with empty body and difficulty `R9` has estimated rank 2, returns
tier 1 (`Executive`) and the reasoning `Trivial task suitable for basic execution`. -/
theorem routeTask_difficulty_keeps_analysis (toLowerCase : String → String)
    (title body difficulty : String) :
    (routeTask toLowerCase title body { difficulty := some difficulty }).analysis =
      (routeTask toLowerCase title body {}).analysis ∧
    (routeTask toLowerCase title body { difficulty := some difficulty }).reasoning =
      (routeTask toLowerCase title body {}).reasoning ∧
    (routeTask asciiLower "x" "" { difficulty := some "R9" }).analysis.estimatedRank = 2 ∧
    (routeTask asciiLower "x" "" { difficulty := some "R9" }).agent.tier = 1 ∧
    (routeTask asciiLower "x" "" { difficulty := some "R9" }).agent.name = "Executive" ∧
    (routeTask asciiLower "x" "" { difficulty := some "R9" }).reasoning =
      "Trivial task suitable for basic execution" := by
  have h0 : (analyzeComplexity asciiLower "x" "").entropy = JSNum.num 0 :=
    entropy_of_tokens_all_eq asciiLower (fullText asciiLower "x" "") "x" (by decide) (by decide)
  have hle : (analyzeComplexity asciiLower "x" "").entropy.le 2 := by
    rw [h0]
    show (0 : ℝ) ≤ 2
    norm_num
  have hrank : (analyzeComplexity asciiLower "x" "").estimatedRank = 2 := by
    rw [estimatedRank_eq_rankTable]
    exact rankTable_of_low _ _ _ hle (by decide) (by decide)
  have htc : (analyzeComplexity asciiLower "x" "").technicalCount = 0 := by decide
  have huc : (analyzeComplexity asciiLower "x" "").uncertaintyCount = 0 := by decide
  have hm : manualRank { difficulty := some "R9" } = some 9 := by decide
  have ht : targetRank { difficulty := some "R9" } (analyzeComplexity asciiLower "x" "") = 9 := by
    unfold targetRank
    rw [hm]
    rfl
  refine ⟨?_, ?_, ?_, ?_, ?_, ?_⟩
  · rw [routeTask_analysis, routeTask_analysis]
  · rw [routeTask_reasoning_of_not_free _ _ _ _ none_ne_freeOnly,
      routeTask_reasoning_of_not_free _ _ _ _ none_ne_freeOnly]
  · rw [routeTask_analysis]
    exact hrank
  · rw [routeTask_of_not_free _ _ _ _ (by decide)]
    simp only [ht]
    rfl
  · rw [routeTask_of_not_free _ _ _ _ (by decide)]
    simp only [ht]
    rfl
  · rw [routeTask_reasoning_of_not_free _ _ _ _ (by decide), hrank, htc, huc]
    decide

/-- C20: the cost tolerance extracted by `extractOptions` is absent or a case variant of one of
the five captured phrases, hence never the literal `Free only (Tier 5-6)`; so
`routeTask(title, body, extractOptions(body))` never takes the free-only override: it returns
the rank-based result, whose reasoning is not `Cost constraint: free only`. -/
theorem extractOptions_never_free (toLowerCase : String → String) (title body : String) :
    ((extractOptions body).costTolerance = none ∨
      ∃ phrase ∈ costPhrases, ∃ s, (extractOptions body).costTolerance = some s ∧
        s.data.map Char.toUpper = phrase.data.map Char.toUpper) ∧
    (extractOptions body).costTolerance ≠ some "Free only (Tier 5-6)" ∧
    routeTask toLowerCase title body (extractOptions body) =
      routeTask toLowerCase title body
        { difficulty := (extractOptions body).difficulty, costTolerance := none } ∧
    (routeTask toLowerCase title body (extractOptions body)).reasoning ≠
      "Cost constraint: free only" := by
  have hne := extractOptions_costTolerance_ne_free body
  refine ⟨?_, hne, ?_, ?_⟩
  · cases hc : (extractOptions body).costTolerance with
    | none => exact Or.inl rfl
    | some s =>
      obtain ⟨phrase, hmem, hp⟩ := extractOptions_costTolerance_some body s hc
      exact Or.inr ⟨phrase, hmem, s, rfl, hp⟩
  · rw [routeTask_of_not_free _ _ _ _ hne, routeTask_of_not_free _ _ _ _ none_ne_freeOnly]
    rfl
  · rw [routeTask_of_not_free _ _ _ _ hne]
    exact getReasoning_ne_cost
      (selectedAgent (targetRank (extractOptions body)
        (analyzeComplexity toLowerCase title body))) _

end Vora
